import Mathlib

/-! # A shallow embedding of `libfs/fs.c`

The file system of `src/libfs/fs.c` keeps four global objects (the superblock,
the root directory, the FAT and the table of open files) and talks to a block
device through `block_read` / `block_write`.  The embedding below makes that
state explicit (`State`) and turns every function of `fs.c` into a Lean function
from the state before the call to the returned value and the state after it.

Conventions of the embedding:

* every C integer is an `Int`; the conversions the C code performs between
  `size_t`, `int`, `uint32_t` are explicit (`toInt32`, `toUInt32`, `toSizeT`);
  an argument of type `size_t` is an `Int` that the caller takes from 0 to
  `2 ^ 64 - 1`;
* an array is a function from its index; an access outside the allocated
  object (undefined in C) reads or writes the function at that index;
* a `char *` argument is `none` for the null pointer and `some bytes` for a C
  string whose bytes before the terminating NUL are `bytes`; the `filename`
  field of a directory entry is represented by the C string it holds (the bytes
  before the first NUL), so `filename[0] == 0` is `filename = []` and the
  `memcmp` of `strlen + 1` bytes is equality of the two strings;
* the block device is a function from the block index to a block; the calls to
  `block_read` and `block_write` are taken to succeed, except in `fs_mount`,
  where the read of a block the device does not have fails;
* a loop is a function that recurses on a fuel argument; apart from the chain
  walk of `fs_delete`, which need not terminate, the fuel passed is a bound on
  the number of iterations, so the result is the one of the loop.
-/

namespace Libfs

/-- The size of a device block, `BLOCK_SIZE` of `disk.h`.
Modelled from the spec: `disk.h` is not among the sources; the spec gives the
block size as 4096, which is also the size of `struct SuperBlock`. -/
abbrev BLOCK_SIZE : Int := 4096

/-- End-of-chain marker, also the "unused" marker of a descriptor slot. -/
abbrev FAT_EOC : Int := 0xFFFF

/-- The constants of `fs.h`, which is not among the sources: they are taken as
parameters of the embedding. -/
structure Limits where
  FS_FILENAME_LEN : Int
  FS_FILE_MAX_COUNT : Int
  FS_OPEN_MAX_COUNT : Int

/-- The values the project's header gives to the constants: entries of 32 bytes
with a 16 byte name, 128 of them in the one-block root directory (see the
comment on `RootDir` in `fs.c`), and 32 descriptors. -/
def stdLimits : Limits :=
  { FS_FILENAME_LEN := 16, FS_FILE_MAX_COUNT := 128, FS_OPEN_MAX_COUNT := 32 }

/-- Conversion of an integer value to `int` (32 bits, two's complement). -/
@[irreducible] def toInt32 (x : Int) : Int := (x + 2147483648) % 4294967296 - 2147483648

/-- Conversion of an integer value to `uint32_t`. -/
@[irreducible] def toUInt32 (x : Int) : Int := x % 4294967296

/-- Conversion of an integer value to `size_t` (64 bits). -/
@[irreducible] def toSizeT (x : Int) : Int := x % 18446744073709551616

structure SuperBlock where
  signature : List Int
  all_block_count : Int
  root_start_index : Int
  data_start_index : Int
  data_block_count : Int
  fat_block_count : Int

structure RootEntry where
  filename : List Int
  file_size : Int
  data_index : Int

structure FD where
  index : Int
  offset : Int

structure FDTable where
  table : Int → FD
  open_files : Int

/-- The content of a device block: the superblock, a slice of the FAT, the root
directory, or the bytes of a data block. -/
inductive Block where
  | super (sb : SuperBlock)
  | fat (entries : Int → Int)
  | root (entries : Int → RootEntry)
  | data (bytes : Int → Int)

/-- The global variables of `fs.c` together with the block device. -/
structure State where
  SBlock : Option SuperBlock
  RootDir : Int → RootEntry
  FAT : Int → Int
  OpenTable : FDTable
  disk : Int → Block

/-- Assignment `a[i] = v`. -/
def setAt {α : Type} (a : Int → α) (i : Int) (v : α) : Int → α :=
  fun j => if j = i then v else a j

/-- The bytes `block_read` copies out of a block. -/
def Block.bytes : Block → Int → Int
  | Block.data b => b
  | _ => fun _ => 0

/-- The call `block_read(block, buf)`: the bytes of the block. -/
def block_read (disk : Int → Block) (block : Int) : Int → Int :=
  (disk block).bytes

/-- The call `block_write(block, buf)`. -/
def block_write (disk : Int → Block) (block : Int) (buf : Block) : Int → Block :=
  setAt disk block buf

/-- The call `memcpy(dst + dstOff, src + srcOff, n)`; with `n = BLOCK_SIZE` and
`srcOff = 0` it is also the copy `block_read` makes into `dst + dstOff`. -/
def memcpy (dst : Int → Int) (dstOff : Int) (src : Int → Int) (srcOff : Int) (n : Int) :
    Int → Int :=
  fun j => if dstOff ≤ j ∧ j < dstOff + n then src (srcOff + (j - dstOff)) else dst j

/-- The byte `filename[i]` of a C string: its bytes, then the terminating NUL. -/
def cstrAt (filename : List Int) (i : Int) : Int :=
  if 0 ≤ i then filename.getD i.toNat 0 else 0

/-- The loop of `InitTable`. -/
def InitTable.loop : Nat → Int → (Int → FD) → (Int → FD)
  | 0, _, table => table
  | fuel + 1, i, table =>
    InitTable.loop fuel (i + 1) (setAt table i { index := FAT_EOC, offset := 0 })

def InitTable (L : Limits) (t : FDTable) : FDTable :=
  { table := InitTable.loop L.FS_OPEN_MAX_COUNT.toNat 0 t.table, open_files := 0 }

/-- The first loop of `fs_info`: the number of FAT entries that are 0. -/
def fs_info.fat_loop (FAT : Int → Int) : Nat → Int → Int → Int
  | 0, _, free_fat_count => free_fat_count
  | fuel + 1, i, free_fat_count =>
    fs_info.fat_loop FAT fuel (i + 1) (if FAT i = 0 then free_fat_count + 1 else free_fat_count)

/-- The second loop of `fs_info`: the number of unused directory entries. -/
def fs_info.root_loop (RootDir : Int → RootEntry) : Nat → Int → Int → Int
  | 0, _, free_root_count => free_root_count
  | fuel + 1, k, free_root_count =>
    fs_info.root_loop RootDir fuel (k + 1)
      (if (RootDir k).filename = [] then free_root_count + 1 else free_root_count)

/-- The value `free_fat_count` that `fs_info` prints. -/
def free_fat_count (sb : SuperBlock) (FAT : Int → Int) : Int :=
  fs_info.fat_loop FAT sb.data_block_count.toNat 0 0

/-- The function `fs_info`: the returned value and the two counts it prints. -/
def fs_info (L : Limits) (s : State) : Int × Int × Int :=
  match s.SBlock with
  | none => (-1, 0, 0)
  | some sb =>
    (0, free_fat_count sb s.FAT,
      fs_info.root_loop s.RootDir L.FS_FILE_MAX_COUNT.toNat 0 0)

/-- The loop of `RootEmptySearch`, from slot `i` on. -/
def RootEmptySearch.loop (RootDir : Int → RootEntry) (filename : List Int) :
    Nat → Int → Int → Bool → Int
  | 0, _, index, _ => index
  | fuel + 1, i, index, first_flag =>
    let found := decide ((RootDir i).filename = []) && !first_flag
    let index1 := if found then i else index
    let first_flag1 := if found then true else first_flag
    if (RootDir i).filename = filename then -1
    else RootEmptySearch.loop RootDir filename fuel (i + 1) index1 first_flag1

def RootEmptySearch (L : Limits) (s : State) (filename : List Int) : Int :=
  RootEmptySearch.loop s.RootDir filename L.FS_OPEN_MAX_COUNT.toNat 0 (-1) false

/-- The loop of `RootNameSearch`, from slot `i` on. -/
def RootNameSearch.loop (RootDir : Int → RootEntry) (filename : List Int) :
    Nat → Int → Int
  | 0, _ => -1
  | fuel + 1, i =>
    if (RootDir i).filename = filename then i
    else RootNameSearch.loop RootDir filename fuel (i + 1)

def RootNameSearch (L : Limits) (s : State) (filename : List Int) : Int :=
  RootNameSearch.loop s.RootDir filename L.FS_OPEN_MAX_COUNT.toNat 0

def fs_create (L : Limits) (s : State) (filename : Option (List Int)) : Int × State :=
  match s.SBlock with
  | none => (-1, s)
  | some sb =>
    match filename with
    | none => (-1, s)
    | some filename =>
      let length : Int := filename.length + 1
      if length > L.FS_FILENAME_LEN then (-1, s)
      else if cstrAt filename (length - 1) ≠ 0 then (-1, s)
      else
        let create_index := RootEmptySearch L s filename
        if create_index = -1 then (-1, s)
        else
          let new_file : RootEntry :=
            { filename := filename, file_size := 0, data_index := FAT_EOC }
          let RootDir1 := setAt s.RootDir create_index new_file
          (0, { s with
                  RootDir := RootDir1
                  disk := block_write s.disk sb.root_start_index (Block.root RootDir1) })

/-- The loop of `UpdateFAT`. -/
def UpdateFAT.loop (FAT : Int → Int) : Nat → Int → (Int → Block) → (Int → Block)
  | 0, _, disk => disk
  | fuel + 1, i, disk =>
    UpdateFAT.loop FAT fuel (i + 1)
      (block_write disk (1 + i) (Block.fat (fun j => FAT (BLOCK_SIZE / 2 * i + j))))

def UpdateFAT (sb : SuperBlock) (FAT : Int → Int) (disk : Int → Block) : Int → Block :=
  UpdateFAT.loop FAT sb.fat_block_count.toNat 0 disk

/-- The loop of `fs_delete` over the descriptor table: is some slot bound to
`delete_index`? -/
def fs_delete.open_loop (table : Int → FD) (delete_index : Int) : Nat → Int → Bool
  | 0, _ => false
  | fuel + 1, i =>
    if (table i).index = delete_index then true
    else fs_delete.open_loop table delete_index fuel (i + 1)

/-- The chain walk of `fs_delete`; `none` when the fuel runs out before the
walk reaches `FAT_EOC`. -/
def fs_delete.chain_loop (sb : SuperBlock) (empty_block : Int → Int) :
    Nat → (Int → Int) → (Int → Block) → Int → Option ((Int → Int) × (Int → Block))
  | 0, FAT, disk, cur_entry => if cur_entry ≠ FAT_EOC then none else some (FAT, disk)
  | fuel + 1, FAT, disk, cur_entry =>
    if cur_entry ≠ FAT_EOC then
      let disk1 := block_write disk (sb.data_start_index + cur_entry) (Block.data empty_block)
      let next_entry := FAT cur_entry
      fs_delete.chain_loop sb empty_block fuel (setAt FAT cur_entry 0) disk1 next_entry
    else some (FAT, disk)

/-- The end of `fs_delete`, after the chain walk has left the FAT and the device
`r`: the entry is reset, the root directory and the FAT are written back. -/
def fs_delete.reset (sb : SuperBlock) (s : State) (delete_index : Int)
    (r : (Int → Int) × (Int → Block)) : State :=
  let RootDir1 := setAt s.RootDir delete_index
    { filename := [], file_size := 0, data_index := FAT_EOC }
  { s with
    RootDir := RootDir1
    FAT := r.1
    disk := UpdateFAT sb r.1 (block_write r.2 sb.root_start_index (Block.root RootDir1)) }

/-- The function `fs_delete`.  `empty_block` is the content of the local array
of that name, which the function never initialises; the result is `none` when
the chain walk does not end within `fuel` iterations. -/
def fs_delete (L : Limits) (fuel : Nat) (s : State) (filename : Option (List Int))
    (empty_block : Int → Int) : Option (Int × State) :=
  match s.SBlock with
  | none => some (-1, s)
  | some sb =>
    match filename with
    | none => some (-1, s)
    | some filename =>
      let length : Int := filename.length + 1
      if length > L.FS_FILENAME_LEN then some (-1, s)
      else if cstrAt filename (length - 1) ≠ 0 then some (-1, s)
      else
        let delete_index := RootNameSearch L s filename
        if delete_index = -1 then some (-1, s)
        else if fs_delete.open_loop s.OpenTable.table delete_index
            L.FS_OPEN_MAX_COUNT.toNat 0 then some (-1, s)
        else
          match fs_delete.chain_loop sb empty_block fuel s.FAT s.disk
              (s.RootDir delete_index).data_index with
          | none => none
          | some r => some (0, fs_delete.reset sb s delete_index r)

/-- The loop of `FirstEmptyFD`, from slot `i` on. -/
def FirstEmptyFD.loop (table : Int → FD) : Nat → Int → Int
  | 0, _ => -1
  | fuel + 1, i =>
    if (table i).index = FAT_EOC then i else FirstEmptyFD.loop table fuel (i + 1)

def FirstEmptyFD (L : Limits) (s : State) : Int :=
  FirstEmptyFD.loop s.OpenTable.table L.FS_OPEN_MAX_COUNT.toNat 0

def fs_open (L : Limits) (s : State) (filename : Option (List Int)) : Int × State :=
  match s.SBlock with
  | none => (-1, s)
  | some _ =>
    match filename with
    | none => (-1, s)
    | some filename =>
      if (filename.length : Int) > L.FS_FILENAME_LEN - 1 then (-1, s)
      else if s.OpenTable.open_files = L.FS_OPEN_MAX_COUNT then (-1, s)
      else
        let root_index := RootNameSearch L s filename
        if root_index = -1 then (-1, s)
        else
          let FD_index := FirstEmptyFD L s
          (FD_index, { s with
            OpenTable :=
              { table := setAt s.OpenTable.table FD_index { index := root_index, offset := 0 }
                open_files := s.OpenTable.open_files + 1 } })

def fs_close (L : Limits) (s : State) (fd : Int) : Int × State :=
  match s.SBlock with
  | none => (-1, s)
  | some _ =>
    if fd < 0 ∨ fd > L.FS_OPEN_MAX_COUNT - 1 then (-1, s)
    else if s.OpenTable.open_files = 0 then (-1, s)
    else if (s.OpenTable.table fd).index = FAT_EOC then (-1, s)
    else
      (0, { s with
        OpenTable :=
          { table := setAt s.OpenTable.table fd { index := FAT_EOC, offset := 0 }
            open_files := s.OpenTable.open_files - 1 } })

def fs_stat (L : Limits) (s : State) (fd : Int) : Int :=
  match s.SBlock with
  | none => -1
  | some _ =>
    if fd < 0 ∨ fd > L.FS_OPEN_MAX_COUNT - 1 then -1
    else if (s.OpenTable.table fd).index = FAT_EOC then -1
    else toInt32 (s.RootDir (s.OpenTable.table fd).index).file_size

def fs_lseek (L : Limits) (s : State) (fd : Int) (offset : Int) : Int × State :=
  let file_size := fs_stat L s fd
  if file_size = -1 ∨ toInt32 offset > file_size then (-1, s)
  else
    (0, { s with
      OpenTable :=
        { s.OpenTable with
          table := setAt s.OpenTable.table fd
            { s.OpenTable.table fd with offset := toInt32 offset } } })

/-- The loop of `GetCurrentPosition`. -/
def GetCurrentPosition.loop (FAT : Int → Int) : Nat → Int → Int → Int
  | 0, _, block_number => block_number
  | fuel + 1, cur_offset, block_number =>
    if cur_offset > BLOCK_SIZE - 1 ∧ block_number ≠ FAT_EOC then
      GetCurrentPosition.loop FAT fuel (cur_offset - BLOCK_SIZE) (FAT block_number)
    else block_number

def GetCurrentPosition (s : State) (fd : Int) : Int :=
  let root_index := (s.OpenTable.table fd).index
  let cur_offset := (s.OpenTable.table fd).offset
  let block_number := (s.RootDir root_index).data_index
  GetCurrentPosition.loop s.FAT cur_offset.toNat cur_offset block_number

/-- The loop of `AssignNewFAT`, from entry `i` on. -/
def AssignNewFAT.loop (FAT : Int → Int) : Nat → Int → Int
  | 0, _ => FAT_EOC
  | fuel + 1, i => if FAT i = 0 then i else AssignNewFAT.loop FAT fuel (i + 1)

def AssignNewFAT (sb : SuperBlock) (FAT : Int → Int) : Int :=
  AssignNewFAT.loop FAT sb.data_block_count.toNat 0

/-- The `while` loop of `fs_write`; the result is the FAT, the device and
`wrote_bytes` when the loop is left. -/
def fs_write.loop (sb : SuperBlock) (buf : Int → Int) :
    Nat → (Int → Int) → (Int → Block) → Int → Int → Int → Int →
      (Int → Int) × (Int → Block) × Int
  | 0, FAT, disk, _, _, wrote_bytes, _ => (FAT, disk, wrote_bytes)
  | fuel + 1, FAT, disk, write_block, write_capacity, wrote_bytes, cur_byte =>
    if write_capacity > 0 then
      let blk := sb.data_start_index + write_block
      let to_write : Int → Int :=
        if BLOCK_SIZE - cur_byte > write_capacity then
          memcpy (block_read disk blk) cur_byte buf wrote_bytes write_capacity
        else if cur_byte = 0 then fun j => buf (wrote_bytes + j)
        else memcpy (block_read disk blk) cur_byte buf wrote_bytes (BLOCK_SIZE - cur_byte)
      let wrote_bytes1 :=
        if BLOCK_SIZE - cur_byte > write_capacity then wrote_bytes + write_capacity
        else wrote_bytes + (BLOCK_SIZE - cur_byte)
      let write_capacity1 :=
        if BLOCK_SIZE - cur_byte > write_capacity then 0
        else write_capacity - (BLOCK_SIZE - cur_byte)
      let disk1 := block_write disk blk (Block.data to_write)
      if write_capacity1 > 0 then
        let next_block := FAT write_block
        if next_block = FAT_EOC then
          let next_block1 := AssignNewFAT sb FAT
          if next_block1 = FAT_EOC then (FAT, disk1, wrote_bytes1)
          else
            fs_write.loop sb buf fuel (setAt (setAt FAT write_block next_block1) next_block1 FAT_EOC)
              disk1 next_block1 write_capacity1 wrote_bytes1 0
        else fs_write.loop sb buf fuel FAT disk1 next_block write_capacity1 wrote_bytes1 0
      else fs_write.loop sb buf fuel FAT disk1 write_block write_capacity1 wrote_bytes1 0
    else (FAT, disk, wrote_bytes)

/-- The state of `fs_write` after its loop, whose result is `r`: the size of
the file is raised by `wrote_bytes`, the root directory and the FAT are written
back to the device. -/
def fs_write.stored (sb : SuperBlock) (s : State) (fd : Int)
    (r : (Int → Int) × (Int → Block) × Int) : State :=
  let root_index := (s.OpenTable.table fd).index
  let RootDir1 := setAt s.RootDir root_index
    { s.RootDir root_index with
      file_size := toUInt32 ((s.RootDir root_index).file_size + r.2.2) }
  { s with
    RootDir := RootDir1
    FAT := r.1
    disk := UpdateFAT sb r.1 (block_write r.2.1 sb.root_start_index (Block.root RootDir1)) }

/-- The part of `fs_write` after the block to write to is known: the loop, the
update of the size and the write-back (`fs_write.stored`), and the move of the
offset. -/
def fs_write.finish (L : Limits) (sb : SuperBlock) (s : State) (fd : Int) (buf : Int → Int)
    (count : Int) (write_block : Int) : Int × State :=
  let write_capacity := toInt32 count
  let cur_byte := Int.tmod (s.OpenTable.table fd).offset BLOCK_SIZE
  let r := fs_write.loop sb buf write_capacity.toNat s.FAT s.disk write_block
    write_capacity 0 cur_byte
  let wrote_bytes := r.2.2
  let s1 := fs_write.stored sb s fd r
  let s2 := (fs_lseek L s1 fd (toSizeT ((s1.OpenTable.table fd).offset + wrote_bytes))).2
  (wrote_bytes, s2)

/-- The two assignments of `fs_write` that make the newly found block
`write_block` the first block of the file: `data_index` of the entry and the
FAT entry of the block. -/
def fs_write.new_head (s : State) (fd : Int) (write_block : Int) : State :=
  let root_index := (s.OpenTable.table fd).index
  { s with
    RootDir := setAt s.RootDir root_index { s.RootDir root_index with data_index := write_block }
    FAT := setAt s.FAT write_block FAT_EOC }

def fs_write (L : Limits) (s : State) (fd : Int) (buf : Option (Int → Int)) (count : Int) :
    Int × State :=
  match s.SBlock with
  | none => (-1, s)
  | some sb =>
    if fd < 0 ∨ fd > L.FS_OPEN_MAX_COUNT - 1 then (-1, s)
    else
      match buf with
      | none => (-1, s)
      | some buf =>
        if (s.OpenTable.table fd).index = FAT_EOC then (-1, s)
        else if count ≤ 0 then (0, s)
        else
          let write_block := GetCurrentPosition s fd
          if write_block = FAT_EOC then
            let write_block1 := AssignNewFAT sb s.FAT
            if write_block1 = FAT_EOC then (0, s)
            else fs_write.finish L sb (fs_write.new_head s fd write_block1) fd buf count write_block1
          else fs_write.finish L sb s fd buf count write_block

/-- The `while` loop of `fs_read`; the result is the destination buffer and
`read_bytes` when the loop is left. -/
def fs_read.loop (sb : SuperBlock) (FAT : Int → Int) (disk : Int → Block) :
    Nat → (Int → Int) → Int → Int → Int → Int → (Int → Int) × Int
  | 0, buf, _, _, read_bytes, _ => (buf, read_bytes)
  | fuel + 1, buf, read_block, read_capacity, read_bytes, cur_byte =>
    if read_capacity > 0 ∧ read_block ≠ FAT_EOC then
      let blk := sb.data_start_index + read_block
      if BLOCK_SIZE - cur_byte > read_capacity then
        fs_read.loop sb FAT disk fuel
          (memcpy buf read_bytes (block_read disk blk) cur_byte read_capacity)
          (FAT read_block) 0 (read_bytes + read_capacity) 0
      else
        let buf1 : Int → Int :=
          if cur_byte = 0 then memcpy buf read_bytes (block_read disk blk) 0 BLOCK_SIZE
          else memcpy buf read_bytes (block_read disk blk) cur_byte (BLOCK_SIZE - cur_byte)
        fs_read.loop sb FAT disk fuel buf1
          (FAT read_block) (read_capacity - (BLOCK_SIZE - cur_byte))
          (read_bytes + (BLOCK_SIZE - cur_byte)) 0
    else (buf, read_bytes)

/-- The function `fs_read`: the returned value, the state and the destination
buffer after the call. -/
def fs_read (L : Limits) (s : State) (fd : Int) (buf : Option (Int → Int)) (count : Int) :
    Int × State × Option (Int → Int) :=
  match s.SBlock with
  | none => (-1, s, buf)
  | some sb =>
    if fd < 0 ∨ fd > L.FS_OPEN_MAX_COUNT - 1 then (-1, s, buf)
    else
      match buf with
      | none => (-1, s, none)
      | some buf =>
        if (s.OpenTable.table fd).index = FAT_EOC then (-1, s, some buf)
        else if count ≤ 0 then (0, s, some buf)
        else
          let read_block := GetCurrentPosition s fd
          let offset := (s.OpenTable.table fd).offset
          let file_size := (s.RootDir (s.OpenTable.table fd).index).file_size
          let read_capacity :=
            if toSizeT (toSizeT offset + count) > file_size then toInt32 (toUInt32 (file_size - offset))
            else toInt32 count
          let cur_byte := Int.tmod offset BLOCK_SIZE
          let r := fs_read.loop sb s.FAT s.disk read_capacity.toNat buf read_block
            read_capacity 0 cur_byte
          let read_bytes := r.2
          let s1 := (fs_lseek L s fd (toSizeT (offset + read_bytes))).2
          (read_bytes, s1, some r.1)

/-! ## Concrete volumes -/

/-- The superblock of a volume of seven blocks: the superblock, one FAT block,
the root directory and four data blocks. -/
def smallSuper : SuperBlock :=
  { signature := [69, 67, 83, 49, 53, 48, 70, 83]
    all_block_count := 7
    root_start_index := 2
    data_start_index := 3
    data_block_count := 4
    fat_block_count := 1 }

/-- A freshly formatted volume, mounted: every directory slot is unused, FAT
entry 0 is `FAT_EOC` and the other entries are free, no descriptor is active. -/
def formatted : State :=
  { SBlock := some smallSuper
    RootDir := fun _ => { filename := [], file_size := 0, data_index := 0 }
    FAT := fun i => if i = 0 then FAT_EOC else 0
    OpenTable := { table := fun _ => { index := FAT_EOC, offset := 0 }, open_files := 0 }
    disk := fun _ => Block.data (fun _ => 0) }

/-- A mounted volume whose only file, `"a"` of 10 bytes in data block 1, has its
entry in directory slot 40. -/
def fileInSlot40 : State :=
  { formatted with
    RootDir := setAt formatted.RootDir 40 { filename := [97], file_size := 10, data_index := 1 }
    FAT := fun i => if i = 0 ∨ i = 1 then FAT_EOC else 0 }

/-- A mounted volume whose directory slots 0 to 31 hold the empty files
`"f\x01"`, ..., `"f\x20"` and whose slots 32 to 127 are unused. -/
def first32Used : State :=
  { formatted with
    RootDir := fun i =>
      if 0 ≤ i ∧ i < 32 then { filename := [102, i + 1], file_size := 0, data_index := FAT_EOC }
      else { filename := [], file_size := 0, data_index := 0 } }

/-- A mounted volume with the file `"a"` in slot 0: 4096 bytes in data block 1,
opened by descriptor 0, whose offset is 4096 (the end of the file). -/
def oneFullBlock : State :=
  { formatted with
    RootDir := setAt formatted.RootDir 0 { filename := [97], file_size := 4096, data_index := 1 }
    FAT := fun i => if i = 0 ∨ i = 1 then FAT_EOC else 0
    OpenTable :=
      { table := setAt formatted.OpenTable.table 0 { index := 0, offset := 4096 }
        open_files := 1 } }

/-- The block `fs_write` puts on the device in one iteration of its loop. -/
def fs_write.to_write (sb : SuperBlock) (buf : Int → Int) (disk : Int → Block)
    (write_block write_capacity wrote_bytes cur_byte : Int) : Int → Int :=
  if BLOCK_SIZE - cur_byte > write_capacity then
    memcpy (block_read disk (sb.data_start_index + write_block)) cur_byte buf wrote_bytes
      write_capacity
  else if cur_byte = 0 then fun j => buf (wrote_bytes + j)
  else memcpy (block_read disk (sb.data_start_index + write_block)) cur_byte buf wrote_bytes
    (BLOCK_SIZE - cur_byte)

/-- The blocks `c` are the chain that starts at `head`: each block is followed
by the block its FAT entry names, and the entry of the last one is `FAT_EOC`
(`head` itself is `FAT_EOC` when the chain is empty). -/
def IsChain (FAT : Int → Int) : Int → List Int → Prop
  | head, [] => head = FAT_EOC
  | head, b :: rest => head = b ∧ b ≠ FAT_EOC ∧ IsChain FAT (FAT b) rest

/-- The data blocks `c`, in this order, hold the `cap` bytes of `B` that start
at `off`, 4096 bytes in each block but the last. -/
def HoldsData (sb : SuperBlock) (disk : Int → Block) (B : Int → Int) : List Int → Int → Int → Prop
  | [], cap, _ => cap ≤ 0
  | b :: rest, cap, off =>
    0 < cap
    ∧ (∀ j, 0 ≤ j → j < BLOCK_SIZE → j < cap →
        block_read disk (sb.data_start_index + b) j = B (off + j))
    ∧ HoldsData sb disk B rest (cap - BLOCK_SIZE) (off + BLOCK_SIZE)

/-- A mounted volume with the new, empty file `"a"` in slot 0 (size 0, no
block), opened by descriptor 0 at offset 0; FAT entries 1, 2 and 3 are free. -/
def newFileOpen : State :=
  { formatted with
    RootDir := setAt formatted.RootDir 0
      { filename := [97], file_size := 0, data_index := FAT_EOC }
    OpenTable :=
      { table := setAt formatted.OpenTable.table 0 { index := 0, offset := 0 }
        open_files := 1 } }

/-- The state after the calls `fs_close(fd)` for the descriptors `fds`, in this
order. -/
def closeAll (L : Limits) (s : State) : List Int → State
  | [] => s
  | fd :: fds => closeAll L (fs_close L s fd).2 fds

/-- A mounted volume on which the chain of the file `"a"` (slot 0, head block 1)
runs into free FAT entries: entries 0 and 1 are both 0.  Descriptor 0 is bound
to the file. -/
def freeEntryInChain : State :=
  { formatted with
    RootDir := setAt formatted.RootDir 0 { filename := [97], file_size := 10, data_index := 1 }
    FAT := fun _ => 0
    OpenTable :=
      { table := setAt formatted.OpenTable.table 0 { index := 0, offset := 0 }
        open_files := 1 } }

/-! ## Mount, unmount and listing -/

/-- A block device as `block_disk_open` finds it: the number of its blocks
(`block_disk_count`) and their contents. -/
structure Disk where
  count : Int
  blocks : Int → Block

/-- The superblock `block_read` copies out of a block. -/
def Block.asSuper : Block → SuperBlock
  | Block.super sb => sb
  | _ =>
    { signature := [], all_block_count := 0, root_start_index := 0, data_start_index := 0,
      data_block_count := 0, fat_block_count := 0 }

/-- The FAT entries `block_read` copies out of a block. -/
def Block.asFat : Block → Int → Int
  | Block.fat entries => entries
  | _ => fun _ => 0

/-- The directory entries `block_read` copies out of a block. -/
def Block.asRoot : Block → Int → RootEntry
  | Block.root entries => entries
  | _ => fun _ => { filename := [], file_size := 0, data_index := 0 }

/-- The eight bytes `"ECS150FS"`. -/
def signature : List Int := [69, 67, 83, 49, 53, 48, 70, 83]

/-- The loop of `fs_mount` that reads the FAT block by block; the flag is
`false` when a `block_read` fails, which it does for a block index that is not
below the block count of the device. -/
def fs_mount.fat_loop (d : Disk) : Nat → Int → (Int → Int) → Bool × (Int → Int)
  | 0, _, FAT => (true, FAT)
  | fuel + 1, i, FAT =>
    if 1 + i ≥ d.count then (false, FAT)
    else
      fs_mount.fat_loop d fuel (i + 1)
        (memcpy FAT (BLOCK_SIZE / 2 * i) (d.blocks (1 + i)).asFat 0 (BLOCK_SIZE / 2))

/-- The function `fs_mount`.  `opened` is what `block_disk_open(diskname)`
gives: `none` when it fails, the device when it succeeds.  `fresh` is the
content of the block `malloc` returns for the superblock.  The calls to
`malloc` are taken to succeed. -/
def fs_mount (L : Limits) (s : State) (opened : Option Disk) (fresh : SuperBlock) :
    Int × State :=
  match opened with
  | none => (-1, s)
  | some d =>
    let s0 : State := { s with disk := d.blocks }
    if 0 ≥ d.count then (-1, { s0 with SBlock := some fresh })
    else
      let sb := (d.blocks 0).asSuper
      let s1 : State := { s0 with SBlock := some sb }
      if sb.signature ≠ signature then (-1, s1)
      else if sb.all_block_count ≠ d.count then (-1, s1)
      else
        let r := fs_mount.fat_loop d sb.fat_block_count.toNat 0 (fun _ => 0)
        let s2 : State := { s1 with FAT := r.2 }
        if r.1 = false then (-1, s2)
        else if sb.root_start_index ≥ d.count then (-1, s2)
        else
          (0, { s2 with
            RootDir := (d.blocks sb.root_start_index).asRoot
            OpenTable := InitTable L s.OpenTable })

/-- The function `fs_umount`.  `closed` tells whether `block_disk_close`
succeeds. -/
def fs_umount (s : State) (closed : Bool) : Int × State :=
  match s.SBlock with
  | none => (-1, s)
  | some _ =>
    if s.OpenTable.open_files > 0 then (-1, s)
    else if closed = false then (-1, s)
    else (0, { s with SBlock := none })

/-- The loop of `fs_ls`: the lines it prints, one for each used entry. -/
def fs_ls.loop (RootDir : Int → RootEntry) : Nat → Int → List RootEntry
  | 0, _ => []
  | fuel + 1, i =>
    if (RootDir i).filename ≠ [] then RootDir i :: fs_ls.loop RootDir fuel (i + 1)
    else fs_ls.loop RootDir fuel (i + 1)

/-- The function `fs_ls`: the returned value and the entries it prints. -/
def fs_ls (L : Limits) (s : State) : Int × List RootEntry :=
  match s.SBlock with
  | none => (-1, [])
  | some _ => (0, fs_ls.loop s.RootDir L.FS_FILE_MAX_COUNT.toNat 0)

/-- The global variables of `fs.c` before the first call: the pointers are
null, the table of open files is zero. -/
def initial : State :=
  { SBlock := none
    RootDir := fun _ => { filename := [], file_size := 0, data_index := 0 }
    FAT := fun _ => 0
    OpenTable := { table := fun _ => { index := 0, offset := 0 }, open_files := 0 }
    disk := fun _ => Block.data (fun _ => 0) }

/-- A freshly formatted device of seven blocks: the superblock `smallSuper`, a
FAT block whose entry 0 is `FAT_EOC`, an empty root directory, four data
blocks. -/
def formattedDisk : Disk :=
  { count := 7
    blocks := fun i =>
      if i = 0 then Block.super smallSuper
      else if i = 1 then Block.fat (fun j => if j = 0 then FAT_EOC else 0)
      else if i = 2 then Block.root (fun _ => { filename := [], file_size := 0, data_index := 0 })
      else Block.data (fun _ => 0) }

/-- The device `formattedDisk` with a wrong signature in its superblock. -/
def badSignatureDisk : Disk :=
  { formattedDisk with
    blocks := fun i =>
      if i = 0 then Block.super { smallSuper with signature := [0, 0, 0, 0, 0, 0, 0, 0] }
      else formattedDisk.blocks i }

/-- The device `formattedDisk` with a superblock that counts eight blocks. -/
def badCountDisk : Disk :=
  { formattedDisk with
    blocks := fun i =>
      if i = 0 then Block.super { smallSuper with all_block_count := 8 }
      else formattedDisk.blocks i }

/-- A mounted volume with the file `"a"` of 10 bytes in slot 0 (data block 1),
opened by descriptor 0 at offset 0. -/
def tenByteFile : State :=
  { formatted with
    RootDir := setAt formatted.RootDir 0 { filename := [97], file_size := 10, data_index := 1 }
    FAT := fun i => if i = 0 ∨ i = 1 then FAT_EOC else 0
    OpenTable :=
      { table := setAt formatted.OpenTable.table 0 { index := 0, offset := 0 }
        open_files := 1 } }

/-- The state after `fs_mount` of `formattedDisk`, `fs_create("a")` and
`fs_open("a")`. -/
def mountedWithOpenFile : State :=
  (fs_open stdLimits
    (fs_create stdLimits (fs_mount stdLimits initial (some formattedDisk) smallSuper).2
      (some [97])).2 (some [97])).2

/-! ## States a session can reach -/

/-- The number of slots `i`, ..., `i + fuel - 1` of the descriptor table whose
`index` is not the unused mark `FAT_EOC`. -/
def activeCount (table : Int → FD) : Nat → Int → Int
  | 0, _ => 0
  | fuel + 1, i =>
    (if (table i).index ≠ FAT_EOC then 1 else 0) + activeCount table fuel (i + 1)

/-- The value `read_capacity` has when the loop of `fs_read` starts. -/
def fs_read.capacity (s : State) (fd : Int) (count : Int) : Int :=
  if toSizeT (toSizeT (s.OpenTable.table fd).offset + count)
      > (s.RootDir (s.OpenTable.table fd).index).file_size then
    toInt32 (toUInt32 ((s.RootDir (s.OpenTable.table fd).index).file_size
      - (s.OpenTable.table fd).offset))
  else toInt32 count

/-- The byte at position `p` of the file whose chain of blocks is `c`: byte
`p % BLOCK_SIZE` of the data block `c[p / BLOCK_SIZE]`. -/
def fileByte (sb : SuperBlock) (disk : Int → Block) (c : List Int) (p : Int) : Int :=
  block_read disk (sb.data_start_index + c.getD (p / BLOCK_SIZE).toNat FAT_EOC) (p % BLOCK_SIZE)

/-- A mounted volume with the file `"a"` in slot 0, whose stored size is
2147483648 (`INT_MAX + 1`), its one data block 1, opened by descriptor 0 at
offset 0. -/
def hugeFile : State :=
  { formatted with
    RootDir := setAt formatted.RootDir 0
      { filename := [97], file_size := 2147483648, data_index := 1 }
    FAT := fun i => if i = 0 ∨ i = 1 then FAT_EOC else 0
    OpenTable :=
      { table := setAt formatted.OpenTable.table 0 { index := 0, offset := 0 }
        open_files := 1 } }

/-- The volume `tenByteFile` with descriptor 0 at offset 1. -/
def tenByteFileAt1 : State :=
  { tenByteFile with
    OpenTable :=
      { table := setAt formatted.OpenTable.table 0 { index := 0, offset := 1 }
        open_files := 1 } }

/-- The result of `fs_read(0, buf, 5)` on `tenByteFile`, the buffer holding
zeros. -/
def fiveBytesRead : Int × State × Option (Int → Int) :=
  fs_read stdLimits tenByteFile 0 (some (fun _ => 0)) 5

/-- What the calls of a round trip return: `fs_create(name)`,
`fd = fs_open(name)`, `fs_write(fd, B, n)`, `fs_close(fd)`,
`fd2 = fs_open(name)`, `fs_stat(fd2)`, `fs_read(fd2, buf, n)` with the buffer
it leaves, and `fs_stat(fd2)` again. -/
structure RoundTrip where
  created : Int
  fd : Int
  wrote : Int
  closed : Int
  fd2 : Int
  size_opened : Int
  got : Int
  buf : Option (Int → Int)
  size : Int

/-- The round trip of a file: the calls `fs_create(name)`, `fd = fs_open(name)`,
`fs_write(fd, B, n)`, `fs_close(fd)`, `fd2 = fs_open(name)`, `fs_stat(fd2)`,
`fs_read(fd2, buf, n)`, `fs_stat(fd2)` made one after the other from the state
`s`. -/
def roundTrip (L : Limits) (s : State) (name : List Int) (B buf : Int → Int) (n : Int) :
    RoundTrip :=
  let c := fs_create L s (some name)
  let o := fs_open L c.2 (some name)
  let w := fs_write L o.2 o.1 (some B) n
  let cl := fs_close L w.2 o.1
  let o2 := fs_open L cl.2 (some name)
  let rd := fs_read L o2.2 o2.1 (some buf) n
  { created := c.1
    fd := o.1
    wrote := w.1
    closed := cl.1
    fd2 := o2.1
    size_opened := fs_stat L o2.2 o2.1
    got := rd.1
    buf := rd.2.2
    size := fs_stat L rd.2.1 o2.1 }

/-! ## Evaluations of the code -/

/-- C2: on `oneFullBlock` (offset 4096 = size of the file, a multiple of the
block size) `fs_write` of one byte returns 1 and replaces the head block 1 of
the file by the new block 2; `fs_lseek` back to 4096 succeeds and `fs_read` of
one byte then returns 0, not 1. -/
theorem write_at_aligned_end_is_not_read_back :
    (fs_write stdLimits oneFullBlock 0 (some (fun _ => 7)) 1).1 = 1
    ∧ (oneFullBlock.RootDir 0).data_index = 1
    ∧ ((fs_write stdLimits oneFullBlock 0 (some (fun _ => 7)) 1).2.RootDir 0).data_index = 2
    ∧ (fs_lseek stdLimits (fs_write stdLimits oneFullBlock 0 (some (fun _ => 7)) 1).2 0 4096).1 = 0
    ∧ (fs_read stdLimits
        (fs_lseek stdLimits (fs_write stdLimits oneFullBlock 0 (some (fun _ => 7)) 1).2 0 4096).2
        0 (some (fun _ => 0)) 1).1 = 0 := by
  with_unfolding_all decide

/-- C6: on `fileInSlot40` the file `"a"` exists, is not open and owns the chain
of the single block 1, but `fs_delete` returns -1 and does not free block 1:
the name search stops after `FS_OPEN_MAX_COUNT` slots. -/
theorem delete_misses_file_in_slot_40 :
    (fileInSlot40.RootDir 40).filename = [97]
    ∧ (fileInSlot40.RootDir 40).data_index = 1
    ∧ fileInSlot40.FAT 1 = FAT_EOC
    ∧ (fs_delete stdLimits 10 fileInSlot40 (some [97]) (fun _ => 0)).map (fun r => r.1) = some (-1)
    ∧ (fs_delete stdLimits 10 fileInSlot40 (some [97]) (fun _ => 0)).map (fun r => r.2.FAT 1)
        = some FAT_EOC := by
  decide

/-- C8: `fs_create` looks at the first `FS_OPEN_MAX_COUNT` slots only.  On
`fileInSlot40` it accepts the name `"a"` that slot 40 already holds (and puts it
in slot 0 too); on `first32Used`, where slot 32 is unused and no slot holds
`"a"`, it returns -1 and creates nothing. -/
theorem create_scans_first_32_slots_only :
    ((fileInSlot40.RootDir 40).filename = [97]
      ∧ (fs_create stdLimits fileInSlot40 (some [97])).1 = 0
      ∧ ((fs_create stdLimits fileInSlot40 (some [97])).2.RootDir 0).filename = [97]
      ∧ ((fs_create stdLimits fileInSlot40 (some [97])).2.RootDir 40).filename = [97])
    ∧ ((first32Used.RootDir 32).filename = []
      ∧ (fs_create stdLimits first32Used (some [97])).1 = -1) := by
  decide

/-- C9: on `fileInSlot40` no descriptor is active and the file `"a"` exists, but
`fs_open` returns -1 and leaves descriptor slot 0 unused. -/
theorem open_misses_file_in_slot_40 :
    (fileInSlot40.RootDir 40).filename = [97]
    ∧ fileInSlot40.OpenTable.open_files = 0
    ∧ (fs_open stdLimits fileInSlot40 (some [97])).1 = -1
    ∧ ((fs_open stdLimits fileInSlot40 (some [97])).2.OpenTable.table 0).index = FAT_EOC := by
  decide

/-- C10: on the freshly formatted volume `fs_create` of the empty name returns
-1, but `fs_open` of the empty name returns descriptor 0, bound to the unused
directory slot 0, and `fs_delete` of the empty name returns 0 and sets FAT
entry 0, which was `FAT_EOC`, to 0. -/
theorem empty_name_is_accepted_by_open_and_delete :
    (fs_create stdLimits formatted (some [])).1 = -1
    ∧ (formatted.RootDir 0).filename = []
    ∧ (fs_open stdLimits formatted (some [])).1 = 0
    ∧ ((fs_open stdLimits formatted (some [])).2.OpenTable.table 0).index = 0
    ∧ (fs_open stdLimits formatted (some [])).2.OpenTable.open_files = 1
    ∧ formatted.FAT 0 = FAT_EOC
    ∧ (fs_delete stdLimits 10 formatted (some []) (fun _ => 0)).map (fun r => r.1) = some 0
    ∧ (fs_delete stdLimits 10 formatted (some []) (fun _ => 0)).map (fun r => r.2.FAT 0)
        = some 0 := by
  decide

/-! ## Basic facts about the embedding -/

theorem setAt_same {α : Type} (a : Int → α) (i : Int) (v : α) : setAt a i v i = v := by
  simp [setAt]

theorem setAt_ne {α : Type} (a : Int → α) {i j : Int} (v : α) (h : j ≠ i) :
    setAt a i v j = a j := by
  simp [setAt, h]

theorem toInt32_of_range {x : Int} (h1 : -2147483648 ≤ x) (h2 : x ≤ 2147483647) :
    toInt32 x = x := by
  unfold toInt32; omega

theorem toInt32_toSizeT (x : Int) : toInt32 (toSizeT x) = toInt32 x := by
  unfold toInt32 toSizeT; omega

/-- The value of `fs_stat` on a mounted volume for an active descriptor. -/
theorem fs_stat_active (L : Limits) (s : State) (sb : SuperBlock) (fd : Int)
    (hs : s.SBlock = some sb) (hfd : 0 ≤ fd ∧ fd ≤ L.FS_OPEN_MAX_COUNT - 1)
    (hact : (s.OpenTable.table fd).index ≠ FAT_EOC) :
    fs_stat L s fd = toInt32 (s.RootDir (s.OpenTable.table fd).index).file_size := by
  have hfd' : ¬ (fd < 0 ∨ fd > L.FS_OPEN_MAX_COUNT - 1) := by omega
  unfold fs_stat
  rw [hs]
  simp only [hfd', hact, if_false]

/-- A successful `fs_lseek` sets the offset of the descriptor and nothing else. -/
theorem fs_lseek_ok (L : Limits) (s : State) (fd : Int) (offset : Int)
    (h1 : fs_stat L s fd ≠ -1) (h2 : toInt32 offset ≤ fs_stat L s fd) :
    fs_lseek L s fd offset =
      (0, { s with
        OpenTable :=
          { s.OpenTable with
            table := setAt s.OpenTable.table fd
              { s.OpenTable.table fd with offset := toInt32 offset } } }) := by
  have h : ¬ (fs_stat L s fd = -1 ∨ toInt32 offset > fs_stat L s fd) := by omega
  unfold fs_lseek
  simp only [h, if_false]

theorem fs_lseek_fail (L : Limits) (s : State) (fd : Int) (offset : Int)
    (h : fs_stat L s fd = -1 ∨ toInt32 offset > fs_stat L s fd) :
    fs_lseek L s fd offset = (-1, s) := by
  unfold fs_lseek
  simp only [h, if_true]

theorem fs_lseek_cases (L : Limits) (s : State) (fd : Int) (offset : Int) :
    fs_lseek L s fd offset = (-1, s) ∨
    fs_lseek L s fd offset =
      (0, { s with
        OpenTable :=
          { s.OpenTable with
            table := setAt s.OpenTable.table fd
              { s.OpenTable.table fd with offset := toInt32 offset } } }) := by
  by_cases h : fs_stat L s fd = -1 ∨ toInt32 offset > fs_stat L s fd
  · exact Or.inl (fs_lseek_fail L s fd offset h)
  · exact Or.inr (fs_lseek_ok L s fd offset (by omega) (by omega))

theorem fs_lseek_SBlock (L : Limits) (s : State) (fd : Int) (offset : Int) :
    (fs_lseek L s fd offset).2.SBlock = s.SBlock := by
  rcases fs_lseek_cases L s fd offset with h | h <;> rw [h]

theorem fs_lseek_RootDir (L : Limits) (s : State) (fd : Int) (offset : Int) :
    (fs_lseek L s fd offset).2.RootDir = s.RootDir := by
  rcases fs_lseek_cases L s fd offset with h | h <;> rw [h]

theorem fs_lseek_FAT (L : Limits) (s : State) (fd : Int) (offset : Int) :
    (fs_lseek L s fd offset).2.FAT = s.FAT := by
  rcases fs_lseek_cases L s fd offset with h | h <;> rw [h]

theorem fs_lseek_disk (L : Limits) (s : State) (fd : Int) (offset : Int) :
    (fs_lseek L s fd offset).2.disk = s.disk := by
  rcases fs_lseek_cases L s fd offset with h | h <;> rw [h]

theorem fs_lseek_open_files (L : Limits) (s : State) (fd : Int) (offset : Int) :
    (fs_lseek L s fd offset).2.OpenTable.open_files = s.OpenTable.open_files := by
  rcases fs_lseek_cases L s fd offset with h | h <;> rw [h]

theorem fs_lseek_index (L : Limits) (s : State) (fd : Int) (offset : Int) (i : Int) :
    ((fs_lseek L s fd offset).2.OpenTable.table i).index = (s.OpenTable.table i).index := by
  rcases fs_lseek_cases L s fd offset with h | h <;> rw [h]
  show (setAt s.OpenTable.table fd _ i).index = _
  by_cases h : i = fd
  · subst h; rw [setAt_same]
  · rw [setAt_ne _ _ h]

theorem fs_lseek_other (L : Limits) (s : State) (fd : Int) (offset : Int) (i : Int)
    (h : i ≠ fd) : (fs_lseek L s fd offset).2.OpenTable.table i = s.OpenTable.table i := by
  rcases fs_lseek_cases L s fd offset with h' | h' <;> rw [h']
  show setAt s.OpenTable.table fd _ i = _
  rw [setAt_ne _ _ h]

theorem fs_lseek_offset (L : Limits) (s : State) (fd : Int) (offset : Int)
    (h1 : fs_stat L s fd ≠ -1) (h2 : toInt32 offset ≤ fs_stat L s fd) :
    ((fs_lseek L s fd offset).2.OpenTable.table fd).offset = toInt32 offset := by
  rw [fs_lseek_ok L s fd offset h1 h2]
  show (setAt s.OpenTable.table fd _ fd).offset = _
  rw [setAt_same]

/-- The function `fs_write.finish`, with its local definitions unfolded. -/
theorem finish_eq (L : Limits) (sb : SuperBlock) (s : State) (fd : Int) (buf : Int → Int)
    (count : Int) (wb : Int) :
    fs_write.finish L sb s fd buf count wb =
      ((fs_write.loop sb buf (toInt32 count).toNat s.FAT s.disk wb (toInt32 count) 0
          (Int.tmod (s.OpenTable.table fd).offset BLOCK_SIZE)).2.2,
       (fs_lseek L (fs_write.stored sb s fd
          (fs_write.loop sb buf (toInt32 count).toNat s.FAT s.disk wb (toInt32 count) 0
          (Int.tmod (s.OpenTable.table fd).offset BLOCK_SIZE))) fd
          (toSizeT ((s.OpenTable.table fd).offset +
            (fs_write.loop sb buf (toInt32 count).toNat s.FAT s.disk wb (toInt32 count) 0
          (Int.tmod (s.OpenTable.table fd).offset BLOCK_SIZE)).2.2))).2) := rfl

theorem stored_file_size (sb : SuperBlock) (s : State) (fd : Int)
    (r : (Int → Int) × (Int → Block) × Int) :
    ((fs_write.stored sb s fd r).RootDir (s.OpenTable.table fd).index).file_size
      = toUInt32 ((s.RootDir (s.OpenTable.table fd).index).file_size + r.2.2) := by
  show (setAt s.RootDir (s.OpenTable.table fd).index _ (s.OpenTable.table fd).index).file_size = _
  rw [setAt_same]

/-- The function `fs_write` on a mounted volume, for a descriptor in range that
is active and a buffer that is not null. -/
theorem fs_write_eq (L : Limits) (s : State) (sb : SuperBlock) (fd : Int) (buf : Int → Int)
    (count : Int) (hs : s.SBlock = some sb) (hfd : 0 ≤ fd ∧ fd ≤ L.FS_OPEN_MAX_COUNT - 1)
    (hact : (s.OpenTable.table fd).index ≠ FAT_EOC) :
    fs_write L s fd (some buf) count =
      if count ≤ 0 then (0, s)
      else if GetCurrentPosition s fd = FAT_EOC then
        (if AssignNewFAT sb s.FAT = FAT_EOC then (0, s)
         else fs_write.finish L sb (fs_write.new_head s fd (AssignNewFAT sb s.FAT)) fd buf count
          (AssignNewFAT sb s.FAT))
      else fs_write.finish L sb s fd buf count (GetCurrentPosition s fd) := by
  have hfd' : ¬ (fd < 0 ∨ fd > L.FS_OPEN_MAX_COUNT - 1) := by omega
  unfold fs_write
  rw [hs]
  simp only [hfd', hact, if_false]

theorem new_head_file_size (s : State) (fd : Int) (wb : Int) :
    ((fs_write.new_head s fd wb).RootDir (s.OpenTable.table fd).index).file_size
      = (s.RootDir (s.OpenTable.table fd).index).file_size := by
  show (setAt s.RootDir (s.OpenTable.table fd).index _ (s.OpenTable.table fd).index).file_size = _
  rw [setAt_same]

theorem write_loop_done (sb : SuperBlock) (buf : Int → Int) (fuel : Nat) (FAT : Int → Int)
    (disk : Int → Block) (wb cap wrote cb : Int) (h : cap ≤ 0) :
    fs_write.loop sb buf fuel FAT disk wb cap wrote cb = (FAT, disk, wrote) := by
  have h' : ¬ cap > 0 := by omega
  cases fuel with
  | zero => rfl
  | succ n => rw [fs_write.loop]; simp only [h', if_false]

theorem write_loop_within (sb : SuperBlock) (buf : Int → Int) (fuel : Nat) (FAT : Int → Int)
    (disk : Int → Block) (wb cap wrote cb : Int) (h : 0 < cap) (h2 : 4096 - cb > cap) :
    fs_write.loop sb buf (fuel + 1) FAT disk wb cap wrote cb =
      (FAT, block_write disk (sb.data_start_index + wb)
        (Block.data (fs_write.to_write sb buf disk wb cap wrote cb)), wrote + cap) := by
  have h' : cap > 0 := h
  have h0 : ¬ ((0 : Int) > 0) := by omega
  rw [fs_write.loop]
  simp only [BLOCK_SIZE]
  simp only [h', h2, if_true, h0, if_false]
  rw [write_loop_done sb buf fuel _ _ _ _ _ _ (le_refl 0)]
  simp only [fs_write.to_write, BLOCK_SIZE, h2, if_true]

theorem write_loop_last (sb : SuperBlock) (buf : Int → Int) (fuel : Nat) (FAT : Int → Int)
    (disk : Int → Block) (wb cap wrote cb : Int) (h : 0 < cap) (h2 : 4096 - cb = cap) :
    fs_write.loop sb buf (fuel + 1) FAT disk wb cap wrote cb =
      (FAT, block_write disk (sb.data_start_index + wb)
        (Block.data (fs_write.to_write sb buf disk wb cap wrote cb)),
        wrote + (4096 - cb)) := by
  have h' : cap > 0 := h
  have h3 : ¬ (4096 - cb > cap) := by omega
  have h0 : ¬ (cap - (4096 - cb) > 0) := by omega
  rw [fs_write.loop]
  simp only [BLOCK_SIZE]
  simp only [h', h3, if_true, h0, if_false]
  rw [write_loop_done sb buf fuel _ _ _ _ _ _ (by omega)]
  simp only [fs_write.to_write, BLOCK_SIZE, h3, if_false]

theorem write_loop_alloc (sb : SuperBlock) (buf : Int → Int) (fuel : Nat) (FAT : Int → Int)
    (disk : Int → Block) (wb cap wrote cb : Int) (h2 : 4096 - cb < cap)
    (h1 : 0 < 4096 - cb) (h3 : FAT wb = FAT_EOC) (h5 : AssignNewFAT sb FAT ≠ FAT_EOC) :
    fs_write.loop sb buf (fuel + 1) FAT disk wb cap wrote cb =
      fs_write.loop sb buf fuel
        (setAt (setAt FAT wb (AssignNewFAT sb FAT)) (AssignNewFAT sb FAT) FAT_EOC)
        (block_write disk (sb.data_start_index + wb)
          (Block.data (fs_write.to_write sb buf disk wb cap wrote cb)))
        (AssignNewFAT sb FAT) (cap - (4096 - cb)) (wrote + (4096 - cb)) 0 := by
  have h' : cap > 0 := by omega
  have h4 : ¬ (4096 - cb > cap) := by omega
  have h0 : cap - (4096 - cb) > 0 := by omega
  rw [fs_write.loop]
  simp only [BLOCK_SIZE]
  simp only [h', h4, if_true, h0, if_false, h3, h5]
  simp only [fs_write.to_write, BLOCK_SIZE, h4, if_false]

theorem write_loop_break (sb : SuperBlock) (buf : Int → Int) (fuel : Nat) (FAT : Int → Int)
    (disk : Int → Block) (wb cap wrote cb : Int) (h2 : 4096 - cb < cap)
    (h1 : 0 < 4096 - cb) (h3 : FAT wb = FAT_EOC) (h5 : AssignNewFAT sb FAT = FAT_EOC) :
    fs_write.loop sb buf (fuel + 1) FAT disk wb cap wrote cb =
      (FAT, block_write disk (sb.data_start_index + wb)
          (Block.data (fs_write.to_write sb buf disk wb cap wrote cb)),
        wrote + (4096 - cb)) := by
  have h' : cap > 0 := by omega
  have h4 : ¬ (4096 - cb > cap) := by omega
  have h0 : cap - (4096 - cb) > 0 := by omega
  rw [fs_write.loop]
  simp only [BLOCK_SIZE]
  simp only [h', h4, if_true, h0, if_false, h3, h5]
  simp only [fs_write.to_write, BLOCK_SIZE, h4, if_false]

theorem assign_loop_spec (FAT : Int → Int) :
    ∀ (k : Nat) (i : Int),
      (AssignNewFAT.loop FAT k i = FAT_EOC ∧ ∀ j, i ≤ j → j < i + k → FAT j ≠ 0)
      ∨ (i ≤ AssignNewFAT.loop FAT k i ∧ AssignNewFAT.loop FAT k i < i + k
          ∧ FAT (AssignNewFAT.loop FAT k i) = 0
          ∧ ∀ j, i ≤ j → j < AssignNewFAT.loop FAT k i → FAT j ≠ 0) := by
  intro k
  induction k with
  | zero =>
    intro i
    left
    exact ⟨rfl, fun j h1 h2 => by simp at h2; omega⟩
  | succ n ih =>
    intro i
    by_cases h : FAT i = 0
    · have e : AssignNewFAT.loop FAT (n + 1) i = i := by
        rw [AssignNewFAT.loop]; exact if_pos h
      right
      rw [e]
      exact ⟨le_refl i, by push_cast; omega, h, fun j h1 h2 => by omega⟩
    · have e : AssignNewFAT.loop FAT (n + 1) i = AssignNewFAT.loop FAT n (i + 1) := by
        rw [AssignNewFAT.loop]; exact if_neg h
      rw [e]
      rcases ih (i + 1) with ⟨h1, h2⟩ | ⟨h1, h2, h3, h4⟩
      · left
        refine ⟨h1, fun j hj1 hj2 => ?_⟩
        by_cases hji : j = i
        · subst hji; exact h
        · exact h2 j (by omega) (by push_cast at hj2; omega)
      · right
        refine ⟨by omega, by push_cast; omega, h3, fun j hj1 hj2 => ?_⟩
        by_cases hji : j = i
        · subst hji; exact h
        · exact h4 j (by omega) hj2

theorem fat_loop_acc (FAT : Int → Int) :
    ∀ (k : Nat) (i c : Int), fs_info.fat_loop FAT k i c = c + fs_info.fat_loop FAT k i 0 := by
  intro k
  induction k with
  | zero => intro i c; simp [fs_info.fat_loop]
  | succ n ih =>
    intro i c
    rw [fs_info.fat_loop, fs_info.fat_loop, ih (i + 1) (if FAT i = 0 then c + 1 else c),
      ih (i + 1) (if FAT i = 0 then 0 + 1 else 0)]
    split <;> omega

theorem fat_loop_succ (FAT : Int → Int) (k : Nat) (i : Int) :
    fs_info.fat_loop FAT (k + 1) i 0
      = (if FAT i = 0 then 1 else 0) + fs_info.fat_loop FAT k (i + 1) 0 := by
  rw [fs_info.fat_loop, fat_loop_acc]
  split <;> simp

theorem fat_loop_nonneg (FAT : Int → Int) :
    ∀ (k : Nat) (i : Int), 0 ≤ fs_info.fat_loop FAT k i 0 := by
  intro k
  induction k with
  | zero => intro i; simp [fs_info.fat_loop]
  | succ n ih =>
    intro i
    rw [fat_loop_succ]
    have := ih (i + 1)
    split <;> omega

theorem fat_loop_le (FAT : Int → Int) :
    ∀ (k : Nat) (i : Int), fs_info.fat_loop FAT k i 0 ≤ k := by
  intro k
  induction k with
  | zero => intro i; simp [fs_info.fat_loop]
  | succ n ih =>
    intro i
    rw [fat_loop_succ]
    have := ih (i + 1)
    push_cast
    split <;> omega

theorem fat_loop_eq_zero (FAT : Int → Int) :
    ∀ (k : Nat) (i : Int), (∀ j, i ≤ j → j < i + k → FAT j ≠ 0) →
      fs_info.fat_loop FAT k i 0 = 0 := by
  intro k
  induction k with
  | zero => intro i _; simp [fs_info.fat_loop]
  | succ n ih =>
    intro i h
    rw [fat_loop_succ, ih (i + 1) (fun j h1 h2 => h j (by omega) (by push_cast; omega))]
    have := h i (le_refl i) (by push_cast; omega)
    simp [this]

theorem fat_loop_congr (FAT FAT' : Int → Int) :
    ∀ (k : Nat) (i : Int), (∀ j, i ≤ j → j < i + k → (FAT j = 0 ↔ FAT' j = 0)) →
      fs_info.fat_loop FAT k i 0 = fs_info.fat_loop FAT' k i 0 := by
  intro k
  induction k with
  | zero => intro i _; simp [fs_info.fat_loop]
  | succ n ih =>
    intro i h
    rw [fat_loop_succ, fat_loop_succ,
      ih (i + 1) (fun j h1 h2 => h j (by omega) (by push_cast; omega))]
    have := h i (le_refl i) (by push_cast; omega)
    simp only [this]

/-- Taking one free entry of the counted range into use lowers the count by one. -/
theorem fat_loop_take (FAT : Int → Int) (x v : Int) (hv : v ≠ 0) :
    ∀ (k : Nat) (i : Int), i ≤ x → x < i + k → FAT x = 0 →
      fs_info.fat_loop (setAt FAT x v) k i 0 = fs_info.fat_loop FAT k i 0 - 1 := by
  intro k
  induction k with
  | zero => intro i h1 h2; simp at h2; omega
  | succ n ih =>
    intro i h1 h2 h3
    rw [fat_loop_succ, fat_loop_succ]
    by_cases hx : x = i
    · subst hx
      rw [setAt_same]
      have : fs_info.fat_loop (setAt FAT x v) n (x + 1) 0 = fs_info.fat_loop FAT n (x + 1) 0 :=
        fat_loop_congr _ _ n (x + 1) (fun j hj1 hj2 => by
          rw [setAt_ne _ _ (by omega : j ≠ x)])
      rw [this]
      simp [hv, h3]
    · rw [ih (i + 1) (by omega) (by push_cast at h2; omega) h3,
        setAt_ne _ _ (by omega : i ≠ x)]
      omega

/-- Freeing one used entry of the counted range raises the count by one. -/
theorem fat_loop_free (FAT : Int → Int) (x : Int) :
    ∀ (k : Nat) (i : Int), i ≤ x → x < i + k → FAT x ≠ 0 →
      fs_info.fat_loop (setAt FAT x 0) k i 0 = fs_info.fat_loop FAT k i 0 + 1 := by
  intro k
  induction k with
  | zero => intro i h1 h2; simp at h2; omega
  | succ n ih =>
    intro i h1 h2 h3
    rw [fat_loop_succ, fat_loop_succ]
    by_cases hx : x = i
    · subst hx
      rw [setAt_same]
      have : fs_info.fat_loop (setAt FAT x 0) n (x + 1) 0 = fs_info.fat_loop FAT n (x + 1) 0 :=
        fat_loop_congr _ _ n (x + 1) (fun j hj1 hj2 => by
          rw [setAt_ne _ _ (by omega : j ≠ x)])
      rw [this]
      simp [h3]; omega
    · rw [ih (i + 1) (by omega) (by push_cast at h2; omega) h3,
        setAt_ne _ _ (by omega : i ≠ x)]
      omega

theorem assign_found (sb : SuperBlock) (FAT : Int → Int)
    (h : AssignNewFAT sb FAT ≠ FAT_EOC) :
    0 ≤ AssignNewFAT sb FAT ∧ AssignNewFAT sb FAT < sb.data_block_count
    ∧ FAT (AssignNewFAT sb FAT) = 0
    ∧ ∀ j, 0 ≤ j → j < AssignNewFAT sb FAT → FAT j ≠ 0 := by
  unfold AssignNewFAT at h ⊢
  rcases assign_loop_spec FAT sb.data_block_count.toNat 0 with ⟨h1, _⟩ | ⟨h1, h2, h3, h4⟩
  · exact absurd h1 h
  · exact ⟨h1, by omega, h3, h4⟩

theorem full_of_assign_eoc (sb : SuperBlock) (FAT : Int → Int)
    (hd : sb.data_block_count ≤ 65535) (h : AssignNewFAT sb FAT = FAT_EOC) :
    free_fat_count sb FAT = 0 := by
  unfold AssignNewFAT at h
  unfold free_fat_count
  rcases assign_loop_spec FAT sb.data_block_count.toNat 0 with ⟨_, h2⟩ | ⟨h1, h2, _, _⟩
  · exact fat_loop_eq_zero FAT _ 0 h2
  · rw [h] at h2
    change (65535 : Int) < _ at h2
    omega

theorem assign_ne_eoc_of_free (sb : SuperBlock) (FAT : Int → Int)
    (hd : sb.data_block_count ≤ 65535) (h : 0 < free_fat_count sb FAT) :
    AssignNewFAT sb FAT ≠ FAT_EOC := by
  intro he
  have := full_of_assign_eoc sb FAT hd he
  omega

/-- Linking the free entry `nb` after the last block `wb` of a chain takes one
entry out of the free ones. -/
theorem free_after_link (sb : SuperBlock) (FAT : Int → Int) (wb nb : Int)
    (hwb : FAT wb ≠ 0) (hnb0 : 0 ≤ nb) (hnb1 : nb < sb.data_block_count) (hnb : FAT nb = 0)
    (hne : nb ≠ 0) :
    free_fat_count sb (setAt (setAt FAT wb nb) nb FAT_EOC) = free_fat_count sb FAT - 1 := by
  have hw : wb ≠ nb := fun e => hwb (e ▸ hnb)
  unfold free_fat_count
  rw [fat_loop_take (setAt FAT wb nb) nb FAT_EOC (by decide) _ 0 hnb0 (by omega)
    (by rw [setAt_ne _ _ (Ne.symm hw)]; exact hnb)]
  rw [fat_loop_congr (setAt FAT wb nb) FAT _ 0 (fun j _ _ => by
    by_cases hj : j = wb
    · subst hj; rw [setAt_same]; exact ⟨fun e => absurd e hne, fun e => absurd e hwb⟩
    · rw [setAt_ne _ _ hj])]

/-- Making the free entry `nb` the one-block chain of a file takes one entry
out of the free ones. -/
theorem free_after_head (sb : SuperBlock) (FAT : Int → Int) (nb : Int)
    (hnb0 : 0 ≤ nb) (hnb1 : nb < sb.data_block_count) (hnb : FAT nb = 0) :
    free_fat_count sb (setAt FAT nb FAT_EOC) = free_fat_count sb FAT - 1 := by
  unfold free_fat_count
  exact fat_loop_take FAT nb FAT_EOC (by decide) _ 0 hnb0 (by omega) hnb

theorem holdsData_length (sb : SuperBlock) (disk : Int → Block) (B : Int → Int) :
    ∀ (c : List Int) (cap off : Int), HoldsData sb disk B c cap off → 0 ≤ cap →
      (c.length : Int) = (cap + 4095) / 4096 := by
  intro c
  induction c with
  | nil =>
    intro cap off h h0
    have h' : cap ≤ 0 := h
    simp; omega
  | cons b rest ih =>
    intro cap off h h0
    obtain ⟨h1, _, h3⟩ := h
    by_cases hc : cap ≤ 4096
    · cases rest with
      | nil => simp; omega
      | cons b' rest' =>
        obtain ⟨h4, _, _⟩ := h3
        simp only [BLOCK_SIZE] at h4
        omega
    · have := ih (cap - 4096) (off + 4096) h3 (by omega)
      simp only [List.length_cons]
      push_cast
      omega

/-! ## Writing a fresh chain -/

theorem block_read_write_same (disk : Int → Block) (x : Int) (f : Int → Int) :
    block_read (block_write disk x (Block.data f)) x = f := by
  unfold block_read block_write
  rw [setAt_same]
  rfl

theorem block_write_ne (disk : Int → Block) (x y : Int) (b : Block) (h : y ≠ x) :
    block_write disk x b y = disk y := by
  unfold block_write
  exact setAt_ne _ _ h

theorem to_write_at (sb : SuperBlock) (buf : Int → Int) (disk : Int → Block)
    (wb cap wrote j : Int) (h0 : 0 ≤ j) (h2 : j < cap) :
    fs_write.to_write sb buf disk wb cap wrote 0 j = buf (wrote + j) := by
  unfold fs_write.to_write
  by_cases hp : BLOCK_SIZE - 0 > cap
  · rw [if_pos hp]
    unfold memcpy
    rw [if_pos ⟨h0, by omega⟩]
    congr 1
    omega
  · rw [if_neg hp, if_pos rfl]

theorem write_loop_fresh (sb : SuperBlock) (buf : Int → Int)
    (hd : sb.data_block_count ≤ 65535) :
    ∀ (fuel : Nat) (FAT : Int → Int) (disk : Int → Block) (wb cap wrote : Int),
      0 < cap → cap ≤ fuel → 0 ≤ wb → wb < sb.data_block_count → FAT wb = FAT_EOC →
      (∀ i, 0 ≤ i → i ≤ wb → FAT i ≠ 0) →
      ∀ r, fs_write.loop sb buf fuel FAT disk wb cap wrote 0 = r →
        ∃ c : List Int,
          IsChain r.1 wb c
          ∧ HoldsData sb r.2.1 buf c (min cap (4096 * (free_fat_count sb FAT + 1))) wrote
          ∧ r.2.2 = wrote + min cap (4096 * (free_fat_count sb FAT + 1))
          ∧ (∀ b ∈ c, wb ≤ b ∧ b < sb.data_block_count)
          ∧ c.Pairwise (fun a b => a < b)
          ∧ (∀ i, i < wb → r.1 i = FAT i)
          ∧ (∀ x, x < sb.data_start_index + wb → r.2.1 x = disk x) := by
  intro fuel
  induction fuel with
  | zero => intro FAT disk wb cap wrote h1 h2; simp at h2; omega
  | succ n ih =>
    intro FAT disk wb cap wrote hcap hfuel hwb0 hwb1 hE hnz r hr
    have hF : 0 ≤ free_fat_count sb FAT := fat_loop_nonneg FAT _ 0
    have hwbne : wb ≠ FAT_EOC := by
      intro e; rw [e] at hwb1; change (65535 : Int) < _ at hwb1; omega
    have hone : IsChain FAT wb [wb] := ⟨rfl, hwbne, hE⟩
    have hrd : ∀ (cap' : Int), cap' ≤ cap → ∀ j, 0 ≤ j → j < BLOCK_SIZE → j < cap' →
        block_read (block_write disk (sb.data_start_index + wb)
          (Block.data (fs_write.to_write sb buf disk wb cap wrote 0)))
          (sb.data_start_index + wb) j = buf (wrote + j) := by
      intro cap' hc j h0 _ h2
      rw [block_read_write_same]
      exact to_write_at sb buf disk wb cap wrote j h0 (by omega)
    have hfr : ∀ x, x < sb.data_start_index + wb →
        block_write disk (sb.data_start_index + wb)
          (Block.data (fs_write.to_write sb buf disk wb cap wrote 0)) x = disk x :=
      fun x hx => block_write_ne _ _ _ _ (by omega)
    by_cases hp : 4096 - 0 > cap
    · rw [write_loop_within sb buf n FAT disk wb cap wrote 0 hcap hp] at hr
      subst hr
      have hm : min cap (4096 * (free_fat_count sb FAT + 1)) = cap := by omega
      rw [hm]
      exact ⟨[wb], hone, ⟨hcap, hrd cap (le_refl _), by show cap - 4096 ≤ 0; omega⟩, rfl,
        fun b hb => by simp at hb; subst hb; exact ⟨le_refl _, hwb1⟩,
        List.pairwise_singleton _ _, fun i _ => rfl, hfr⟩
    · by_cases hl : 4096 - 0 = cap
      · rw [write_loop_last sb buf n FAT disk wb cap wrote 0 hcap hl] at hr
        subst hr
        have hm : min cap (4096 * (free_fat_count sb FAT + 1)) = cap := by omega
        rw [hm]
        exact ⟨[wb], hone, ⟨hcap, hrd cap (le_refl _), by show cap - 4096 ≤ 0; omega⟩,
          by show wrote + (4096 - 0) = wrote + cap; omega,
          fun b hb => by simp at hb; subst hb; exact ⟨le_refl _, hwb1⟩,
          List.pairwise_singleton _ _, fun i _ => rfl, hfr⟩
      · have hlt : 4096 - 0 < cap := by omega
        by_cases ha : AssignNewFAT sb FAT = FAT_EOC
        · rw [write_loop_break sb buf n FAT disk wb cap wrote 0 hlt (by norm_num) hE ha] at hr
          subst hr
          have hz := full_of_assign_eoc sb FAT hd ha
          have hm : min cap (4096 * (free_fat_count sb FAT + 1)) = 4096 := by omega
          rw [hm]
          exact ⟨[wb], hone,
            ⟨by norm_num, hrd 4096 (by omega), by show (4096 : Int) - 4096 ≤ 0; omega⟩,
            by show wrote + (4096 - 0) = wrote + 4096; omega,
            fun b hb => by simp at hb; subst hb; exact ⟨le_refl _, hwb1⟩,
            List.pairwise_singleton _ _, fun i _ => rfl, hfr⟩
        · rw [write_loop_alloc sb buf n FAT disk wb cap wrote 0 hlt (by norm_num) hE ha] at hr
          obtain ⟨hn0, hn1, hn2, hn3⟩ := assign_found sb FAT ha
          have hgt : wb < AssignNewFAT sb FAT := by
            by_contra hle
            exact hnz _ hn0 (by omega) hn2
          generalize AssignNewFAT sb FAT = nb at hr hn0 hn1 hn2 hn3 hgt
          have hfree := free_after_link sb FAT wb nb (by rw [hE]; decide) hn0 hn1 hn2 (by omega)
          have hnz2 : ∀ i, 0 ≤ i → i ≤ nb → setAt (setAt FAT wb nb) nb FAT_EOC i ≠ 0 := by
            intro i hi0 hi1
            by_cases h1 : i = nb
            · subst h1; rw [setAt_same]; decide
            · rw [setAt_ne _ _ h1]
              by_cases h2 : i = wb
              · subst h2; rw [setAt_same]; omega
              · rw [setAt_ne _ _ h2]; exact hn3 i hi0 (by omega)
          obtain ⟨c, hc1, hc2, hc3, hc4, hc5, hc6, hc7⟩ :=
            ih _ _ nb (cap - (4096 - 0)) (wrote + (4096 - 0)) (by omega)
              (by push_cast at hfuel; omega) hn0 hn1 (setAt_same _ _ _) hnz2 r hr
          rw [hfree] at hc2 hc3
          have hm : min cap (4096 * (free_fat_count sb FAT + 1))
              = 4096 + min (cap - (4096 - 0)) (4096 * (free_fat_count sb FAT - 1 + 1)) := by
            omega
          have hwbv : r.1 wb = nb := by
            rw [hc6 wb hgt, setAt_ne _ _ (by omega : wb ≠ nb), setAt_same]
          refine ⟨wb :: c, ⟨rfl, hwbne, by rw [hwbv]; exact hc1⟩, ?_, by rw [hc3, hm]; omega,
            ?_, ?_, ?_, ?_⟩
          · rw [hm]
            refine ⟨by omega, ?_, ?_⟩
            · intro j h0 h1 h2
              rw [show block_read r.2.1 (sb.data_start_index + wb) j
                = block_read (block_write disk (sb.data_start_index + wb)
                  (Block.data (fs_write.to_write sb buf disk wb cap wrote 0)))
                  (sb.data_start_index + wb) j from by
                    unfold block_read; rw [hc7 _ (by omega)]]
              exact hrd 4096 (by omega) j h0 h1 h1
            · have e1 : 4096 + min (cap - (4096 - 0)) (4096 * (free_fat_count sb FAT - 1 + 1))
                  - BLOCK_SIZE
                  = min (cap - (4096 - 0)) (4096 * (free_fat_count sb FAT - 1 + 1)) := by
                simp only [BLOCK_SIZE]; omega
              have e2 : wrote + BLOCK_SIZE = wrote + (4096 - 0) := by
                simp only [BLOCK_SIZE]; omega
              show HoldsData sb r.2.1 buf c _ _
              rw [e1, e2]
              exact hc2
          · intro b hb
            rcases List.mem_cons.mp hb with e | hb'
            · subst e; exact ⟨le_refl _, hwb1⟩
            · have := hc4 b hb'; exact ⟨by omega, this.2⟩
          · exact List.pairwise_cons.mpr ⟨fun b hb => by have := hc4 b hb; omega, hc5⟩
          · intro i hi
            rw [hc6 i (by omega), setAt_ne _ _ (by omega : i ≠ nb),
              setAt_ne _ _ (by omega : i ≠ wb)]
          · intro x hx
            rw [hc7 x (by omega)]
            exact hfr x hx

theorem getCurrentPosition_zero (s : State) (fd : Int)
    (hoff : (s.OpenTable.table fd).offset = 0) :
    GetCurrentPosition s fd = (s.RootDir (s.OpenTable.table fd).index).data_index := by
  unfold GetCurrentPosition
  simp only [hoff]
  rfl

/-- What `fs_write` does for a descriptor at offset 0 of a file without blocks
when the FAT has a free entry: the first free entry `nb` becomes the head, and
the loop runs on the fresh one-block chain. -/
theorem write_new_file_core (L : Limits) (s : State) (sb : SuperBlock) (fd : Int)
    (buf : Int → Int) (n : Int) (r : Int) (s' : State)
    (h : fs_write L s fd (some buf) n = (r, s'))
    (hs : s.SBlock = some sb) (hfd : 0 ≤ fd ∧ fd ≤ L.FS_OPEN_MAX_COUNT - 1)
    (hact : (s.OpenTable.table fd).index ≠ FAT_EOC)
    (hd : sb.data_block_count ≤ 65535) (hn : 0 < n) (hn2 : n ≤ 2147483647)
    (hhead : (s.RootDir (s.OpenTable.table fd).index).data_index = FAT_EOC)
    (hoff : (s.OpenTable.table fd).offset = 0)
    (hfree : 0 < free_fat_count sb s.FAT) :
    ∃ (nb : Int) (lr : (Int → Int) × (Int → Block) × Int) (c : List Int),
      0 ≤ nb ∧ nb < sb.data_block_count
      ∧ r = lr.2.2
      ∧ s' = (fs_lseek L (fs_write.stored sb (fs_write.new_head s fd nb) fd lr) fd
          (toSizeT (0 + lr.2.2))).2
      ∧ IsChain lr.1 nb c
      ∧ HoldsData sb lr.2.1 buf c (min n (4096 * free_fat_count sb s.FAT)) 0
      ∧ lr.2.2 = min n (4096 * free_fat_count sb s.FAT)
      ∧ (∀ b ∈ c, nb ≤ b ∧ b < sb.data_block_count)
      ∧ c.Pairwise (fun a b => a < b)
      ∧ (∀ x, x < sb.data_start_index + nb → lr.2.1 x = s.disk x) := by
  rw [fs_write_eq L s sb fd buf n hs hfd hact] at h
  have hc0 : ¬ (n ≤ 0) := by omega
  have hg : GetCurrentPosition s fd = FAT_EOC := by
    rw [getCurrentPosition_zero s fd hoff, hhead]
  have ha : AssignNewFAT sb s.FAT ≠ FAT_EOC := assign_ne_eoc_of_free sb s.FAT hd hfree
  rw [if_neg hc0, if_pos hg, if_neg ha, finish_eq] at h
  obtain ⟨hn0, hn1, hn2', hn3⟩ := assign_found sb s.FAT ha
  generalize AssignNewFAT sb s.FAT = nb at h hn0 hn1 hn2' hn3
  have hcap : toInt32 n = n := toInt32_of_range (by omega) hn2
  have hoff' : ((fs_write.new_head s fd nb).OpenTable.table fd).offset = 0 := hoff
  rw [hoff', hcap] at h
  have ht : Int.tmod 0 BLOCK_SIZE = 0 := by decide
  rw [ht] at h
  have hFAT : (fs_write.new_head s fd nb).FAT = setAt s.FAT nb FAT_EOC := rfl
  have hdisk : (fs_write.new_head s fd nb).disk = s.disk := rfl
  rw [hFAT, hdisk] at h
  generalize hlr : fs_write.loop sb buf n.toNat (setAt s.FAT nb FAT_EOC) s.disk nb n 0 0
    = lr at h
  obtain ⟨h1, h2⟩ := Prod.mk.inj h
  have hnz : ∀ i, 0 ≤ i → i ≤ nb → setAt s.FAT nb FAT_EOC i ≠ 0 := by
    intro i hi0 hi1
    by_cases e : i = nb
    · subst e; rw [setAt_same]; decide
    · rw [setAt_ne _ _ e]; exact hn3 i hi0 (by omega)
  obtain ⟨c, hc1, hc2, hc3, hc4, hc5, _, hc7⟩ :=
    write_loop_fresh sb buf hd n.toNat (setAt s.FAT nb FAT_EOC) s.disk nb n 0
      (by omega) (by omega) hn0 hn1 (setAt_same _ _ _) hnz lr hlr
  rw [free_after_head sb s.FAT nb hn0 hn1 hn2'] at hc2 hc3
  have e : 4096 * (free_fat_count sb s.FAT - 1 + 1) = 4096 * free_fat_count sb s.FAT := by
    omega
  rw [e] at hc2 hc3
  rw [zero_add] at hc3
  exact ⟨nb, lr, c, hn0, hn1, h1.symm, h2.symm, hc1, hc2, hc3, hc4, hc5, hc7⟩

/-! ## C5: the chain of a new file -/

theorem isChain_last (FAT : Int → Int) :
    ∀ (c : List Int) (head : Int), IsChain FAT head c →
      ∀ b, c.getLast? = some b → FAT b = FAT_EOC := by
  intro c
  induction c with
  | nil => intro head _ b hb; simp at hb
  | cons a rest ih =>
    intro head h b hb
    obtain ⟨_, _, h3⟩ := h
    cases rest with
    | nil =>
      simp at hb
      subst hb
      exact h3
    | cons a' rest' =>
      rw [List.getLast?_cons_cons] at hb
      exact ih (FAT a) h3 b hb

theorem stored_data_index (sb : SuperBlock) (s : State) (fd : Int)
    (r : (Int → Int) × (Int → Block) × Int) :
    ((fs_write.stored sb s fd r).RootDir (s.OpenTable.table fd).index).data_index
      = (s.RootDir (s.OpenTable.table fd).index).data_index := by
  show (setAt s.RootDir (s.OpenTable.table fd).index _ (s.OpenTable.table fd).index).data_index = _
  rw [setAt_same]

theorem new_head_data_index (s : State) (fd : Int) (wb : Int) :
    ((fs_write.new_head s fd wb).RootDir (s.OpenTable.table fd).index).data_index = wb := by
  show (setAt s.RootDir (s.OpenTable.table fd).index _ (s.OpenTable.table fd).index).data_index = _
  rw [setAt_same]

/-- C5: one `fs_write` of `n > 0` bytes through a descriptor at offset 0 of a
file that owns no block (head `FAT_EOC`), on a volume with at least
`ceil(n / BLOCK_SIZE)` free FAT entries, leaves the file with a chain of exactly
`ceil(n / BLOCK_SIZE)` distinct blocks from its head, and the FAT entry of the
last block of the chain is `FAT_EOC`. -/
theorem new_file_chain_length (L : Limits) (s : State) (sb : SuperBlock) (fd : Int)
    (buf : Int → Int) (n : Int) (r : Int) (s' : State)
    (h : fs_write L s fd (some buf) n = (r, s'))
    (hs : s.SBlock = some sb) (hfd : 0 ≤ fd ∧ fd ≤ L.FS_OPEN_MAX_COUNT - 1)
    (hact : (s.OpenTable.table fd).index ≠ FAT_EOC)
    (hd : sb.data_block_count ≤ 65535) (hn : 0 < n)
    (hhead : (s.RootDir (s.OpenTable.table fd).index).data_index = FAT_EOC)
    (hoff : (s.OpenTable.table fd).offset = 0)
    (hfree : (n + (BLOCK_SIZE - 1)) / BLOCK_SIZE ≤ free_fat_count sb s.FAT) :
    ∃ c : List Int,
      (c.length : Int) = (n + (BLOCK_SIZE - 1)) / BLOCK_SIZE
      ∧ c.Nodup
      ∧ IsChain s'.FAT (s'.RootDir (s.OpenTable.table fd).index).data_index c
      ∧ (∀ b, c.getLast? = some b → s'.FAT b = FAT_EOC) := by
  simp only [BLOCK_SIZE] at hfree ⊢
  have hle := fat_loop_le s.FAT sb.data_block_count.toNat 0
  have hF : free_fat_count sb s.FAT = fs_info.fat_loop s.FAT sb.data_block_count.toNat 0 0 := rfl
  generalize free_fat_count sb s.FAT = F at hfree hF
  have hn2 : n ≤ 2147483647 := by omega
  have hF0 : 0 < F := by omega
  rw [hF] at hF0
  obtain ⟨nb, lr, c, _, _, _, hs', hc1, hc2, _, _, hc5, _⟩ :=
    write_new_file_core L s sb fd buf n r s' h hs hfd hact hd hn hn2 hhead hoff hF0
  have hm : min n (4096 * free_fat_count sb s.FAT) = n := by
    show min n (4096 * fs_info.fat_loop s.FAT sb.data_block_count.toNat 0 0) = n
    rw [← hF]; omega
  rw [hm] at hc2
  have hlen := holdsData_length sb lr.2.1 buf c n 0 hc2 (by omega)
  have hFAT : s'.FAT = lr.1 := by rw [hs', fs_lseek_FAT]; rfl
  have hidx : (s'.RootDir (s.OpenTable.table fd).index).data_index = nb := by
    rw [hs', fs_lseek_RootDir]
    exact (stored_data_index sb (fs_write.new_head s fd nb) fd lr).trans
      (new_head_data_index s fd nb)
  rw [hFAT, hidx]
  refine ⟨c, by rw [hlen]; norm_num, ?_, hc1, isChain_last lr.1 c nb hc1⟩
  exact List.Pairwise.imp (fun hab => ne_of_lt hab) hc5

/-- C5 at a concrete input: 10000 bytes written to the new file of
`newFileOpen`, whose volume has three free FAT entries. -/
theorem new_file_chain_length_witness :
    ∃ c : List Int,
      (c.length : Int) = (10000 + (BLOCK_SIZE - 1)) / BLOCK_SIZE
      ∧ c.Nodup
      ∧ IsChain (fs_write stdLimits newFileOpen 0 (some (fun _ => 7)) 10000).2.FAT
          (((fs_write stdLimits newFileOpen 0 (some (fun _ => 7)) 10000).2.RootDir
            (newFileOpen.OpenTable.table 0).index).data_index) c
      ∧ (∀ b, c.getLast? = some b →
          (fs_write stdLimits newFileOpen 0 (some (fun _ => 7)) 10000).2.FAT b = FAT_EOC) :=
  new_file_chain_length stdLimits newFileOpen smallSuper 0 (fun _ => 7) 10000 _ _ rfl rfl
    (by decide) (by decide) (by decide) (by decide) (by decide) (by decide) (by decide)

/-! ## C4: a short write is not an error -/

theorem getCurrentPosition_loop_eoc (FAT : Int → Int) (fuel : Nat) (off : Int) :
    GetCurrentPosition.loop FAT fuel off FAT_EOC = FAT_EOC := by
  cases fuel with
  | zero => rfl
  | succ n =>
    rw [GetCurrentPosition.loop]
    exact if_neg (fun h => h.2 rfl)

theorem getCurrentPosition_no_block (s : State) (fd : Int)
    (hhead : (s.RootDir (s.OpenTable.table fd).index).data_index = FAT_EOC) :
    GetCurrentPosition s fd = FAT_EOC := by
  unfold GetCurrentPosition
  simp only [hhead]
  exact getCurrentPosition_loop_eoc _ _ _

theorem cstrAt_end (filename : List Int) :
    cstrAt filename ((filename.length : Int) + 1 - 1) = 0 := by
  unfold cstrAt
  have e : (filename.length : Int) + 1 - 1 = filename.length := by omega
  rw [e, if_pos (by omega)]
  simp

theorem open_loop_true (table : Int → FD) (idx : Int) :
    ∀ (k : Nat) (i j : Int), i ≤ j → j < i + k → (table j).index = idx →
      fs_delete.open_loop table idx k i = true := by
  intro k
  induction k with
  | zero => intro i j h1 h2; simp at h2; omega
  | succ n ih =>
    intro i j h1 h2 h3
    rw [fs_delete.open_loop]
    by_cases h : (table i).index = idx
    · exact if_pos h
    · rw [if_neg h]
      exact ih (i + 1) j (by
        by_cases e : j = i
        · subst e; exact absurd h3 h
        · omega) (by push_cast at h2; omega) h3

theorem open_loop_false (table : Int → FD) (idx : Int) :
    ∀ (k : Nat) (i : Int), (∀ j, i ≤ j → j < i + k → (table j).index ≠ idx) →
      fs_delete.open_loop table idx k i = false := by
  intro k
  induction k with
  | zero => intro i _; rfl
  | succ n ih =>
    intro i h
    rw [fs_delete.open_loop, if_neg (h i (le_refl i) (by push_cast; omega))]
    exact ih (i + 1) (fun j h1 h2 => h j (by omega) (by push_cast; omega))

/-- The function `fs_delete` on a mounted volume when the name is a file name
and the search finds it: -1 if a descriptor is bound to the entry, and the
chain walk otherwise. -/
theorem fs_delete_eq (L : Limits) (fuel : Nat) (s : State) (sb : SuperBlock)
    (name : List Int) (eb : Int → Int) (hs : s.SBlock = some sb)
    (hlen : (name.length : Int) + 1 ≤ L.FS_FILENAME_LEN)
    (hidx : RootNameSearch L s name ≠ -1) :
    fs_delete L fuel s (some name) eb =
      if fs_delete.open_loop s.OpenTable.table (RootNameSearch L s name)
          L.FS_OPEN_MAX_COUNT.toNat 0 then some (-1, s)
      else
        match fs_delete.chain_loop sb eb fuel s.FAT s.disk
            (s.RootDir (RootNameSearch L s name)).data_index with
        | none => none
        | some r => some (0, fs_delete.reset sb s (RootNameSearch L s name) r) := by
  unfold fs_delete
  rw [hs]
  have h1 : ¬ ((name.length : Int) + 1 > L.FS_FILENAME_LEN) := by omega
  have h2 : ¬ (cstrAt name ((name.length : Int) + 1 - 1) ≠ 0) := by
    rw [cstrAt_end]; exact fun h => h rfl
  simp only [h1, h2, hidx, if_false]

/-- While a descriptor is bound to the entry the name resolves to, `fs_delete`
returns -1 and changes nothing. -/
theorem fs_delete_busy (L : Limits) (fuel : Nat) (s : State) (name : List Int)
    (eb : Int → Int) (i : Int) (hi : 0 ≤ i ∧ i < L.FS_OPEN_MAX_COUNT)
    (hb : (s.OpenTable.table i).index = RootNameSearch L s name) :
    fs_delete L fuel s (some name) eb = some (-1, s) := by
  have hopen : fs_delete.open_loop s.OpenTable.table (RootNameSearch L s name)
      L.FS_OPEN_MAX_COUNT.toNat 0 = true :=
    open_loop_true _ _ _ 0 i hi.1 (by omega) hb
  unfold fs_delete
  cases hs : s.SBlock with
  | none => rfl
  | some sb =>
    simp only []
    by_cases h1 : (name.length : Int) + 1 > L.FS_FILENAME_LEN
    · rw [if_pos h1]
    · rw [if_neg h1]
      by_cases h2 : cstrAt name ((name.length : Int) + 1 - 1) ≠ 0
      · rw [if_pos h2]
      · rw [if_neg h2]
        by_cases h3 : RootNameSearch L s name = -1
        · rw [if_pos h3]
        · rw [if_neg h3, hopen]; rfl

theorem isChain_congr (FAT FAT' : Int → Int) :
    ∀ (c : List Int) (head : Int), (∀ b ∈ c, FAT' b = FAT b) →
      IsChain FAT head c → IsChain FAT' head c := by
  intro c
  induction c with
  | nil => intro head _ h; exact h
  | cons a rest ih =>
    intro head hc h
    obtain ⟨h1, h2, h3⟩ := h
    refine ⟨h1, h2, ?_⟩
    rw [hc a (List.mem_cons_self a rest)]
    exact ih (FAT a) (fun b hb => hc b (List.mem_cons_of_mem a hb)) h3

theorem chain_loop_eoc (sb : SuperBlock) (eb : Int → Int) (fuel : Nat) (FAT : Int → Int)
    (disk : Int → Block) :
    fs_delete.chain_loop sb eb fuel FAT disk FAT_EOC = some (FAT, disk) := by
  cases fuel with
  | zero => rfl
  | succ n => rfl

/-- On a chain of distinct blocks that ends in `FAT_EOC` the walk of `fs_delete`
ends, with the FAT entries of the chain set to 0 and the others as they were. -/
theorem chain_loop_frees (sb : SuperBlock) (eb : Int → Int) :
    ∀ (c : List Int) (fuel : Nat) (FAT : Int → Int) (disk : Int → Block) (head : Int),
      IsChain FAT head c → c.Nodup → c.length ≤ fuel →
      ∃ disk', fs_delete.chain_loop sb eb fuel FAT disk head
        = some (fun i => if i ∈ c then 0 else FAT i, disk') := by
  intro c
  induction c with
  | nil =>
    intro fuel FAT disk head h _ _
    have h' : head = FAT_EOC := h
    subst h'
    exact ⟨disk, by rw [chain_loop_eoc]; simp⟩
  | cons a rest ih =>
    intro fuel FAT disk head h hnd hf
    obtain ⟨h1, h2, h3⟩ := h
    subst h1
    cases fuel with
    | zero => simp at hf
    | succ n =>
      have hnd' := List.nodup_cons.mp hnd
      have h3' : IsChain (setAt FAT head 0) (FAT head) rest :=
        isChain_congr FAT _ rest (FAT head)
          (fun b hb => setAt_ne _ _ (fun e => hnd'.1 (e ▸ hb))) h3
      obtain ⟨disk', hd⟩ := ih n (setAt FAT head 0)
        (block_write disk (sb.data_start_index + head) (Block.data eb)) (FAT head) h3' hnd'.2
        (by simp at hf; omega)
      refine ⟨disk', ?_⟩
      rw [fs_delete.chain_loop, if_pos h2]
      simp only []
      rw [hd]
      congr 2
      funext i
      by_cases hi : i = head
      · subst hi; simp [hnd'.1, setAt_same]
      · simp [hi, setAt_ne _ _ hi]

theorem chain_loop_stuck (sb : SuperBlock) (eb : Int → Int) :
    ∀ (fuel : Nat) (FAT : Int → Int) (disk : Int → Block), FAT 0 = 0 →
      fs_delete.chain_loop sb eb fuel FAT disk 0 = none := by
  intro fuel
  induction fuel with
  | zero => intro FAT disk _; rfl
  | succ n ih =>
    intro FAT disk h
    rw [fs_delete.chain_loop, if_pos (by decide)]
    simp only []
    rw [h]
    exact ih _ _ (setAt_same _ _ _)

theorem fs_close_cases (L : Limits) (s : State) (fd : Int) :
    fs_close L s fd = (-1, s) ∨
    fs_close L s fd =
      (0, { s with
        OpenTable :=
          { table := setAt s.OpenTable.table fd { index := FAT_EOC, offset := 0 }
            open_files := s.OpenTable.open_files - 1 } }) := by
  unfold fs_close
  cases s.SBlock with
  | none => exact Or.inl rfl
  | some sb =>
    simp only []
    by_cases h1 : fd < 0 ∨ fd > L.FS_OPEN_MAX_COUNT - 1
    · rw [if_pos h1]; exact Or.inl rfl
    · rw [if_neg h1]
      by_cases h2 : s.OpenTable.open_files = 0
      · rw [if_pos h2]; exact Or.inl rfl
      · rw [if_neg h2]
        by_cases h3 : (s.OpenTable.table fd).index = FAT_EOC
        · rw [if_pos h3]; exact Or.inl rfl
        · rw [if_neg h3]; exact Or.inr rfl

theorem fs_close_frame (L : Limits) (s : State) (fd : Int) :
    (fs_close L s fd).2.SBlock = s.SBlock ∧ (fs_close L s fd).2.RootDir = s.RootDir
    ∧ (fs_close L s fd).2.FAT = s.FAT ∧ (fs_close L s fd).2.disk = s.disk := by
  rcases fs_close_cases L s fd with h | h <;> rw [h] <;> exact ⟨rfl, rfl, rfl, rfl⟩

theorem closeAll_frame (L : Limits) :
    ∀ (fds : List Int) (s : State),
      (closeAll L s fds).SBlock = s.SBlock ∧ (closeAll L s fds).RootDir = s.RootDir
      ∧ (closeAll L s fds).FAT = s.FAT ∧ (closeAll L s fds).disk = s.disk := by
  intro fds
  induction fds with
  | nil => intro s; exact ⟨rfl, rfl, rfl, rfl⟩
  | cons fd rest ih =>
    intro s
    obtain ⟨h1, h2, h3, h4⟩ := ih (fs_close L s fd).2
    obtain ⟨g1, g2, g3, g4⟩ := fs_close_frame L s fd
    exact ⟨h1.trans g1, h2.trans g2, h3.trans g3, h4.trans g4⟩

theorem rootNameSearch_congr (L : Limits) (s t : State) (name : List Int)
    (h : t.RootDir = s.RootDir) : RootNameSearch L t name = RootNameSearch L s name := by
  unfold RootNameSearch
  rw [h]

/-- C7, as amended: while a descriptor is bound to the directory entry the
name resolves to, `fs_delete` returns -1 and changes nothing; once the
descriptors `fds` have been closed and no descriptor is bound to that entry,
`fs_delete` succeeds, provided the chain of the file from its head is well
formed (distinct blocks, the last one mapped to `FAT_EOC`). -/
theorem delete_refused_while_open (L : Limits) (s : State) (sb : SuperBlock)
    (name : List Int) (eb : Int → Int) (fds c : List Int) (fuel : Nat) (i : Int)
    (hs : s.SBlock = some sb)
    (hlen : (name.length : Int) + 1 ≤ L.FS_FILENAME_LEN)
    (hidx : RootNameSearch L s name ≠ -1)
    (hi : 0 ≤ i ∧ i < L.FS_OPEN_MAX_COUNT)
    (hb : (s.OpenTable.table i).index = RootNameSearch L s name)
    (hchain : IsChain s.FAT (s.RootDir (RootNameSearch L s name)).data_index c)
    (hnd : c.Nodup) (hfuel : c.length ≤ fuel)
    (hclosed : ∀ j, 0 ≤ j → j < L.FS_OPEN_MAX_COUNT →
      ((closeAll L s fds).OpenTable.table j).index ≠ RootNameSearch L s name) :
    fs_delete L fuel s (some name) eb = some (-1, s)
    ∧ ∃ s', fs_delete L fuel (closeAll L s fds) (some name) eb = some (0, s') := by
  refine ⟨fs_delete_busy L fuel s name eb i hi hb, ?_⟩
  obtain ⟨f1, f2, f3, f4⟩ := closeAll_frame L fds s
  have hr := rootNameSearch_congr L s (closeAll L s fds) name f2
  rw [fs_delete_eq L fuel (closeAll L s fds) sb name eb (f1.trans hs) hlen (by rw [hr]; exact hidx)]
  rw [hr, open_loop_false _ _ _ 0 (fun j h1 h2 => hclosed j h1 (by omega)), f2, f3, f4]
  obtain ⟨disk', hd⟩ := chain_loop_frees sb eb c fuel s.FAT s.disk _ hchain hnd hfuel
  rw [hd]
  exact ⟨_, rfl⟩

/-- C7 at a concrete input: the file `"a"` of `oneFullBlock`, bound to
descriptor 0, with the chain of the single block 1. -/
theorem delete_refused_while_open_witness :
    fs_delete stdLimits 1 oneFullBlock (some [97]) (fun _ => 0) = some (-1, oneFullBlock)
    ∧ ∃ s', fs_delete stdLimits 1 (closeAll stdLimits oneFullBlock [0]) (some [97]) (fun _ => 0)
        = some (0, s') :=
  delete_refused_while_open stdLimits oneFullBlock smallSuper [97] (fun _ => 0) [0] [1] 1 0
    rfl (by decide) (by decide) (by decide) (by decide)
    ⟨by decide, by decide, (by decide : oneFullBlock.FAT 1 = FAT_EOC)⟩ (by decide) (by decide)
    (by decide)

/-- C7 fails as stated: on `freeEntryInChain` descriptor 0 is bound to the file
`"a"` and `fs_delete` returns -1; `fs_close` of the descriptor succeeds, after
which no descriptor is active, but the chain walk of `fs_delete` runs from
block 1 to block 0 and stays there: the call returns for no amount of fuel. -/
theorem delete_after_close_can_diverge :
    (fs_delete stdLimits 1 freeEntryInChain (some [97]) (fun _ => 0)).map (fun r => r.1)
      = some (-1)
    ∧ (fs_close stdLimits freeEntryInChain 0).1 = 0
    ∧ (fs_close stdLimits freeEntryInChain 0).2.OpenTable.open_files = 0
    ∧ ¬ ∃ fuel : Nat,
        (fs_delete stdLimits fuel (fs_close stdLimits freeEntryInChain 0).2 (some [97])
          (fun _ => 0)).isSome = true := by
  refine ⟨by decide, by decide, by decide, ?_⟩
  rintro ⟨fuel, h⟩
  have hidx : RootNameSearch stdLimits (fs_close stdLimits freeEntryInChain 0).2 [97] = 0 := by
    decide
  rw [fs_delete_eq stdLimits fuel _ smallSuper [97] _ rfl (by decide) (by rw [hidx]; decide),
    hidx] at h
  have ho : fs_delete.open_loop (fs_close stdLimits freeEntryInChain 0).2.OpenTable.table 0
      stdLimits.FS_OPEN_MAX_COUNT.toNat 0 = false := by decide
  have hh : ((fs_close stdLimits freeEntryInChain 0).2.RootDir 0).data_index = 1 := by decide
  have hF : (fs_close stdLimits freeEntryInChain 0).2.FAT = fun _ => 0 := rfl
  rw [ho, hh, hF] at h
  have hnone : fs_delete.chain_loop smallSuper (fun _ => 0) fuel (fun _ => 0)
      (fs_close stdLimits freeEntryInChain 0).2.disk 1 = none := by
    cases fuel with
    | zero => rfl
    | succ n =>
      rw [fs_delete.chain_loop, if_pos (by decide)]
      exact chain_loop_stuck _ _ n _ _ (by rw [setAt_ne _ _ (by decide)])
  rw [hnone] at h
  simp at h

/-! ## Evaluations of the code: seek, mount, the head of a file, the invariants -/

/-- C11: on `tenByteFile` (size 10) `fs_lseek` to 4294967296, which is larger
than the size, returns 0 and sets the offset to 0, and `fs_lseek` to
4294967291 returns 0 and sets the offset to -5: the offset is compared after
its conversion to `int`. -/
theorem seek_accepts_offsets_beyond_size :
    (tenByteFile.RootDir (tenByteFile.OpenTable.table 0).index).file_size = 10
    ∧ (fs_lseek stdLimits tenByteFile 0 4294967296).1 = 0
    ∧ ((fs_lseek stdLimits tenByteFile 0 4294967296).2.OpenTable.table 0).offset = 0
    ∧ (fs_lseek stdLimits tenByteFile 0 4294967291).1 = 0
    ∧ ((fs_lseek stdLimits tenByteFile 0 4294967291).2.OpenTable.table 0).offset = -5 := by
  with_unfolding_all decide

/-- C12: `fs_mount` of a device with a wrong signature, or with a superblock
whose block count differs from the one of the device, returns -1 but leaves
`SBlock` set: the `fs_umount` that follows returns 0, not -1. -/
theorem failed_mount_leaves_superblock :
    ((fs_mount stdLimits initial (some badSignatureDisk) smallSuper).1 = -1
      ∧ (fs_mount stdLimits initial (some badSignatureDisk) smallSuper).2.SBlock.isSome = true
      ∧ (fs_umount (fs_mount stdLimits initial (some badSignatureDisk) smallSuper).2 true).1 = 0)
    ∧ ((fs_mount stdLimits initial (some badCountDisk) smallSuper).1 = -1
      ∧ (fs_mount stdLimits initial (some badCountDisk) smallSuper).2.SBlock.isSome = true
      ∧ (fs_umount (fs_mount stdLimits initial (some badCountDisk) smallSuper).2 true).1 = 0) := by
  decide

/-- C16: on `oneFullBlock` the head of the file is block 1, not `FAT_EOC`, and
the descriptor is at the end of that block; `fs_write` of one byte makes block
2 the head, and block 1 is no longer in the chain of the file, which is the
single block 2. -/
theorem write_replaces_head_of_file_with_blocks :
    (oneFullBlock.RootDir 0).data_index = 1
    ∧ ((fs_write stdLimits oneFullBlock 0 (some (fun _ => 7)) 1).2.RootDir 0).data_index = 2
    ∧ (fs_write stdLimits oneFullBlock 0 (some (fun _ => 7)) 1).2.FAT 2 = FAT_EOC := by
  with_unfolding_all decide

/-- C18: after `fs_mount` of `formattedDisk`, `fs_create("a")` and `fs_open("a")`,
each of which succeeds, `fs_lseek(0, 4294967295)` returns 0 and leaves
descriptor 0, bound to the empty file, with the offset -1. -/
theorem seek_makes_offset_negative :
    (fs_mount stdLimits initial (some formattedDisk) smallSuper).1 = 0
    ∧ (fs_create stdLimits (fs_mount stdLimits initial (some formattedDisk) smallSuper).2
        (some [97])).1 = 0
    ∧ (fs_open stdLimits
        (fs_create stdLimits (fs_mount stdLimits initial (some formattedDisk) smallSuper).2
          (some [97])).2 (some [97])).1 = 0
    ∧ (fs_lseek stdLimits mountedWithOpenFile 0 4294967295).1 = 0
    ∧ ((fs_lseek stdLimits mountedWithOpenFile 0 4294967295).2.OpenTable.table 0).index = 0
    ∧ ((fs_lseek stdLimits mountedWithOpenFile 0 4294967295).2.OpenTable.table 0).offset = -1
    ∧ ((fs_lseek stdLimits mountedWithOpenFile 0 4294967295).2.RootDir 0).file_size = 0 := by
  with_unfolding_all decide

/-- C19: from `fs_mount` of `formattedDisk` (no used entry, so the chains are
well formed), `fs_create("a")`, `fs_open("a")`, `fs_write` of 1 byte,
`fs_delete("")` and `fs_write` of 4096 bytes all succeed, and afterwards the
chain of the file `"a"` goes from its head 1 to block 0, so that the FAT entry
of block 1, inside the chain, is the free mark 0. -/
theorem chain_gets_free_entry :
    (fs_lseek stdLimits mountedWithOpenFile 0 0).1 = 0
    ∧ (fs_write stdLimits mountedWithOpenFile 0 (some (fun _ => 7)) 1).1 = 1
    ∧ (fs_delete stdLimits 5 (fs_write stdLimits mountedWithOpenFile 0 (some (fun _ => 7)) 1).2
          (some []) (fun _ => 0)).map
        (fun r => (r.1, (fs_write stdLimits r.2 0 (some (fun _ => 7)) 4096).1,
          ((fs_write stdLimits r.2 0 (some (fun _ => 7)) 4096).2.RootDir 0).filename,
          ((fs_write stdLimits r.2 0 (some (fun _ => 7)) 4096).2.RootDir 0).data_index,
          (fs_write stdLimits r.2 0 (some (fun _ => 7)) 4096).2.FAT 1,
          (fs_write stdLimits r.2 0 (some (fun _ => 7)) 4096).2.FAT 0))
        = some (0, 4096, [97], 1, 0, FAT_EOC) := by
  decide!

/-! ## C13: unmount -/

/-- With no volume mounted every operation but `fs_mount` returns -1 and
changes nothing. -/
theorem unmounted_operations_fail (L : Limits) (s : State) (h : s.SBlock = none)
    (closed : Bool) (name : Option (List Int)) (fuel : Nat) (eb : Int → Int) (fd : Int)
    (offset count : Int) (buf : Option (Int → Int)) :
    fs_umount s closed = (-1, s)
    ∧ (fs_info L s).1 = -1
    ∧ (fs_ls L s).1 = -1
    ∧ fs_create L s name = (-1, s)
    ∧ fs_delete L fuel s name eb = some (-1, s)
    ∧ fs_open L s name = (-1, s)
    ∧ fs_close L s fd = (-1, s)
    ∧ fs_stat L s fd = -1
    ∧ fs_lseek L s fd offset = (-1, s)
    ∧ fs_read L s fd buf count = (-1, s, buf)
    ∧ fs_write L s fd buf count = (-1, s) := by
  have hstat : fs_stat L s fd = -1 := by unfold fs_stat; rw [h]
  refine ⟨?_, ?_, ?_, ?_, ?_, ?_, ?_, hstat, ?_, ?_, ?_⟩
  · unfold fs_umount; rw [h]
  · unfold fs_info; rw [h]
  · unfold fs_ls; rw [h]
  · unfold fs_create; rw [h]
  · unfold fs_delete; rw [h]
  · unfold fs_open; rw [h]
  · unfold fs_close; rw [h]
  · exact fs_lseek_fail L s fd offset (Or.inl hstat)
  · unfold fs_read; rw [h]
  · unfold fs_write; rw [h]

/-- C13: `fs_umount` returns -1 and changes nothing if no volume is mounted or
the count of open files is greater than 0; otherwise, when the device closes,
it returns 0 and leaves the session unmounted, so that every operation but
`fs_mount` then returns -1. -/
theorem umount_refused_while_files_open (L : Limits) (s : State) (closed : Bool) :
    ((s.SBlock = none ∨ s.OpenTable.open_files > 0) → fs_umount s closed = (-1, s))
    ∧ (s.SBlock ≠ none → ¬ s.OpenTable.open_files > 0 → closed = true →
        (fs_umount s closed).1 = 0
        ∧ (fs_umount s closed).2.SBlock = none
        ∧ ∀ (closed' : Bool) (name : Option (List Int)) (fuel : Nat) (eb : Int → Int)
            (fd offset count : Int) (buf : Option (Int → Int)),
            (fs_umount (fs_umount s closed).2 closed').1 = -1
            ∧ (fs_info L (fs_umount s closed).2).1 = -1
            ∧ (fs_ls L (fs_umount s closed).2).1 = -1
            ∧ (fs_create L (fs_umount s closed).2 name).1 = -1
            ∧ (fs_delete L fuel (fs_umount s closed).2 name eb).map (fun r => r.1) = some (-1)
            ∧ (fs_open L (fs_umount s closed).2 name).1 = -1
            ∧ (fs_close L (fs_umount s closed).2 fd).1 = -1
            ∧ fs_stat L (fs_umount s closed).2 fd = -1
            ∧ (fs_lseek L (fs_umount s closed).2 fd offset).1 = -1
            ∧ (fs_read L (fs_umount s closed).2 fd buf count).1 = -1
            ∧ (fs_write L (fs_umount s closed).2 fd buf count).1 = -1) := by
  constructor
  · intro h
    unfold fs_umount
    cases hs : s.SBlock with
    | none => rfl
    | some sb =>
      rcases h with h | h
      · rw [hs] at h; exact absurd h (by simp)
      · simp only []
        rw [if_pos h]
  · intro h1 h2 h3
    have e : fs_umount s closed = (0, { s with SBlock := none }) := by
      unfold fs_umount
      cases hs : s.SBlock with
      | none => exact absurd hs h1
      | some sb =>
        simp only []
        rw [if_neg h2, if_neg (by rw [h3]; decide)]
    rw [e]
    refine ⟨rfl, rfl, ?_⟩
    intro closed' name fuel eb fd offset count buf
    obtain ⟨a1, a2, a3, a4, a5, a6, a7, a8, a9, a10, a11⟩ :=
      unmounted_operations_fail L { s with SBlock := none } rfl closed' name fuel eb fd offset
        count buf
    refine ⟨?_, a2, a3, ?_, ?_, ?_, ?_, a8, ?_, ?_, ?_⟩
    · show (fs_umount { s with SBlock := none } closed').1 = -1
      rw [a1]
    · show (fs_create L { s with SBlock := none } name).1 = -1
      rw [a4]
    · show (fs_delete L fuel { s with SBlock := none } name eb).map (fun r => r.1) = some (-1)
      rw [a5]; rfl
    · show (fs_open L { s with SBlock := none } name).1 = -1
      rw [a6]
    · show (fs_close L { s with SBlock := none } fd).1 = -1
      rw [a7]
    · show (fs_lseek L { s with SBlock := none } fd offset).1 = -1
      rw [a9]
    · show (fs_read L { s with SBlock := none } fd buf count).1 = -1
      rw [a10]
    · show (fs_write L { s with SBlock := none } fd buf count).1 = -1
      rw [a11]



/-- C13 at concrete inputs: `oneFullBlock`, which has an open file, and the
volume `formatted`, which has none. -/
theorem umount_refused_while_files_open_witness :
    fs_umount oneFullBlock true = (-1, oneFullBlock)
    ∧ (fs_umount formatted true).1 = 0
    ∧ (fs_umount formatted true).2.SBlock = none :=
  ⟨(umount_refused_while_files_open stdLimits oneFullBlock true).1 (Or.inr (by decide)),
    ((umount_refused_while_files_open stdLimits formatted true).2
      (by simp [formatted]) (by decide)
      rfl).1,
    ((umount_refused_while_files_open stdLimits formatted true).2
      (by simp [formatted]) (by decide)
      rfl).2.1⟩

/-! ## C15: the block of an offset -/

theorem isChain_head (FAT : Int → Int) (c : List Int) (head : Int) (h : IsChain FAT head c) :
    c.getD 0 FAT_EOC = head := by
  cases c with
  | nil => exact h.symm
  | cons b rest => exact h.1.symm

theorem getCurrentPosition_loop_chain (FAT : Int → Int) :
    ∀ (fuel : Nat) (c : List Int) (off head : Int), IsChain FAT head c → 0 ≤ off →
      off / 4096 ≤ fuel →
      GetCurrentPosition.loop FAT fuel off head = c.getD (off / 4096).toNat FAT_EOC := by
  intro fuel
  induction fuel with
  | zero =>
    intro c off head hc h0 hf
    have e : (off / 4096).toNat = 0 := by simp at hf; omega
    rw [e, isChain_head FAT c head hc]
    rfl
  | succ n ih =>
    intro c off head hc h0 hf
    rw [GetCurrentPosition.loop]
    by_cases hcond : off > BLOCK_SIZE - 1 ∧ head ≠ FAT_EOC
    · rw [if_pos hcond]
      obtain ⟨h1, h2⟩ := hcond
      simp only [BLOCK_SIZE] at h1 ⊢
      cases c with
      | nil => exact absurd hc h2
      | cons b rest =>
        obtain ⟨hb, _, hrest⟩ := hc
        subst hb
        rw [ih rest (off - 4096) (FAT head) hrest (by omega) (by push_cast at hf; omega)]
        have e : (off / 4096).toNat = ((off - 4096) / 4096).toNat + 1 := by omega
        rw [e, List.getD_cons_succ]
    · rw [if_neg hcond]
      by_cases h1 : off > BLOCK_SIZE - 1
      · have h2 : head = FAT_EOC := by
          by_contra hne; exact hcond ⟨h1, hne⟩
        subst h2
        cases c with
        | nil => rfl
        | cons b rest => exact absurd hc.1.symm hc.2.1
      · simp only [BLOCK_SIZE] at h1
        have e : (off / 4096).toNat = 0 := by omega
        rw [e, isChain_head FAT c head hc]

/-- C15: for a descriptor with offset `O >= 0` bound to a file whose chain from
its head is the list of blocks `c`, the loop of `GetCurrentPosition` ends after
at most `O / BLOCK_SIZE` iterations (more fuel does not change its result) and
`GetCurrentPosition` returns `c[O / BLOCK_SIZE]` when that index is below the
length of `c` and `FAT_EOC` otherwise, so `FAT_EOC` for a file without blocks.
`GetCurrentPosition` is a function of the state: it changes none of it. -/
theorem position_is_chain_index (s : State) (fd : Int) (c : List Int)
    (hO : 0 ≤ (s.OpenTable.table fd).offset)
    (hchain : IsChain s.FAT (s.RootDir (s.OpenTable.table fd).index).data_index c) :
    GetCurrentPosition s fd
        = c.getD ((s.OpenTable.table fd).offset / BLOCK_SIZE).toNat FAT_EOC
    ∧ (∀ fuel : Nat, (s.OpenTable.table fd).offset / BLOCK_SIZE ≤ fuel →
        GetCurrentPosition.loop s.FAT fuel (s.OpenTable.table fd).offset
          (s.RootDir (s.OpenTable.table fd).index).data_index = GetCurrentPosition s fd)
    ∧ ((c.length : Int) ≤ (s.OpenTable.table fd).offset / BLOCK_SIZE →
        GetCurrentPosition s fd = FAT_EOC)
    ∧ ((s.RootDir (s.OpenTable.table fd).index).data_index = FAT_EOC →
        GetCurrentPosition s fd = FAT_EOC) := by
  have hmain : GetCurrentPosition s fd
      = c.getD ((s.OpenTable.table fd).offset / BLOCK_SIZE).toNat FAT_EOC := by
    unfold GetCurrentPosition
    exact getCurrentPosition_loop_chain s.FAT _ c _ _ hchain hO (by
      have := Int.ediv_le_self 4096 hO
      omega)
  refine ⟨hmain, ?_, ?_, getCurrentPosition_no_block s fd⟩
  · intro fuel hf
    rw [hmain]
    exact getCurrentPosition_loop_chain s.FAT fuel c _ _ hchain hO hf
  · intro hlen
    rw [hmain]
    apply List.getD_eq_default
    simp only [BLOCK_SIZE] at hlen ⊢
    omega

/-- C15 at a concrete input: descriptor 0 of `oneFullBlock`, at offset 4096 of
a file whose chain is the single block 1. -/
theorem position_is_chain_index_witness :
    GetCurrentPosition oneFullBlock 0
        = [1].getD ((oneFullBlock.OpenTable.table 0).offset / BLOCK_SIZE).toNat FAT_EOC
    ∧ (∀ fuel : Nat, (oneFullBlock.OpenTable.table 0).offset / BLOCK_SIZE ≤ fuel →
        GetCurrentPosition.loop oneFullBlock.FAT fuel (oneFullBlock.OpenTable.table 0).offset
          (oneFullBlock.RootDir (oneFullBlock.OpenTable.table 0).index).data_index
          = GetCurrentPosition oneFullBlock 0)
    ∧ ((([1] : List Int).length : Int) ≤ (oneFullBlock.OpenTable.table 0).offset / BLOCK_SIZE →
        GetCurrentPosition oneFullBlock 0 = FAT_EOC)
    ∧ ((oneFullBlock.RootDir (oneFullBlock.OpenTable.table 0).index).data_index = FAT_EOC →
        GetCurrentPosition oneFullBlock 0 = FAT_EOC) :=
  position_is_chain_index oneFullBlock 0 [1] (by decide)
    ⟨by decide, by decide, (by decide : oneFullBlock.FAT 1 = FAT_EOC)⟩

/-! ## C20: the count of open files -/

theorem activeCount_bounds (t : Int → FD) :
    ∀ (n : Nat) (i : Int), 0 ≤ activeCount t n i ∧ activeCount t n i ≤ n := by
  intro n
  induction n with
  | zero => intro i; exact ⟨le_refl _, le_refl _⟩
  | succ n ih =>
    intro i
    unfold activeCount
    have := ih (i + 1)
    push_cast
    split_ifs <;> omega

theorem updateFAT_loop_frame (FAT : Int → Int) (x : Int) :
    ∀ (n : Nat) (i : Int) (disk : Int → Block),
      (∀ k, i ≤ k → k < i + n → x ≠ 1 + k) → UpdateFAT.loop FAT n i disk x = disk x := by
  intro n
  induction n with
  | zero => intro i disk _; rfl
  | succ n ih =>
    intro i disk h
    unfold UpdateFAT.loop
    rw [ih (i + 1) _ (fun k h1 h2 => h k (by omega) (by push_cast; omega)),
      block_write_ne _ _ _ _ (h i (le_refl _) (by push_cast; omega))]

theorem updateFAT_frame (sb : SuperBlock) (FAT : Int → Int) (disk : Int → Block) (x : Int)
    (hfat : sb.fat_block_count < sb.data_start_index) (hx : sb.data_start_index ≤ x) :
    UpdateFAT sb FAT disk x = disk x := by
  unfold UpdateFAT
  apply updateFAT_loop_frame
  intro k h1 h2
  omega

theorem stored_disk_frame (sb : SuperBlock) (s : State) (fd : Int)
    (lr : (Int → Int) × (Int → Block) × Int) (x : Int)
    (hroot : sb.root_start_index < sb.data_start_index)
    (hfat : sb.fat_block_count < sb.data_start_index) (hx : sb.data_start_index ≤ x) :
    (fs_write.stored sb s fd lr).disk x = lr.2.1 x := by
  show UpdateFAT sb lr.1 (block_write lr.2.1 sb.root_start_index _) x = _
  rw [updateFAT_frame sb _ _ x hfat hx, block_write_ne _ _ _ _ (by omega)]

theorem stored_rootDir_other (sb : SuperBlock) (s : State) (fd : Int)
    (lr : (Int → Int) × (Int → Block) × Int) (i : Int)
    (h : i ≠ (s.OpenTable.table fd).index) :
    (fs_write.stored sb s fd lr).RootDir i = s.RootDir i := by
  show setAt s.RootDir (s.OpenTable.table fd).index _ i = _
  rw [setAt_ne _ _ h]

theorem stored_rootDir_fields (sb : SuperBlock) (s : State) (fd : Int)
    (lr : (Int → Int) × (Int → Block) × Int) (i : Int) :
    ((fs_write.stored sb s fd lr).RootDir i).filename = (s.RootDir i).filename
    ∧ ((fs_write.stored sb s fd lr).RootDir i).data_index = (s.RootDir i).data_index := by
  by_cases h : i = (s.OpenTable.table fd).index
  · show (setAt s.RootDir (s.OpenTable.table fd).index _ i).filename = _
      ∧ (setAt s.RootDir (s.OpenTable.table fd).index _ i).data_index = _
    rw [h, setAt_same]; exact ⟨rfl, rfl⟩
  · rw [stored_rootDir_other sb s fd lr i h]; exact ⟨rfl, rfl⟩

/-- On `hugeFile`, whose stored size is above `INT_MAX`, `fs_read` of 1 byte
returns 1 and leaves the offset 0; on `tenByteFileAt1` (offset 1, size 10, one
block) `fs_read` with count `2 ^ 64 - 1` returns 0, not 9. -/
theorem read_accounting_fails :
    ((hugeFile.OpenTable.table 0).offset = 0
      ∧ (hugeFile.RootDir 0).file_size = 2147483648
      ∧ (fs_read stdLimits hugeFile 0 (some (fun _ => 0)) 1).1 = 1
      ∧ ((fs_read stdLimits hugeFile 0 (some (fun _ => 0)) 1).2.1.OpenTable.table 0).offset = 0)
    ∧ ((tenByteFileAt1.OpenTable.table 0).offset = 1
      ∧ (tenByteFileAt1.RootDir 0).file_size = 10
      ∧ (tenByteFileAt1.RootDir 0).data_index = 1
      ∧ tenByteFileAt1.FAT 1 = FAT_EOC
      ∧ (fs_read stdLimits tenByteFileAt1 0 (some (fun _ => 0)) 18446744073709551615).1 = 0) := by
  decide!

theorem read_loop_done (sb : SuperBlock) (FAT : Int → Int) (disk : Int → Block) (fuel : Nat)
    (buf : Int → Int) (rb cap rbytes cb : Int) (h : ¬ (cap > 0 ∧ rb ≠ FAT_EOC)) :
    fs_read.loop sb FAT disk fuel buf rb cap rbytes cb = (buf, rbytes) := by
  cases fuel with
  | zero => rfl
  | succ n => rw [fs_read.loop, if_neg h]

theorem read_loop_bounds (sb : SuperBlock) (FAT : Int → Int) (disk : Int → Block) :
    ∀ (fuel : Nat) (buf : Int → Int) (rb cap rbytes cb : Int), 0 ≤ cb → cb < 4096 →
      rbytes ≤ (fs_read.loop sb FAT disk fuel buf rb cap rbytes cb).2
      ∧ (fs_read.loop sb FAT disk fuel buf rb cap rbytes cb).2 ≤ rbytes + max cap 0 := by
  intro fuel
  induction fuel with
  | zero => intro buf rb cap rbytes cb _ _; exact ⟨le_refl _, by show rbytes ≤ _; omega⟩
  | succ n ih =>
    intro buf rb cap rbytes cb h0 h1
    rw [fs_read.loop]
    by_cases hc : cap > 0 ∧ rb ≠ FAT_EOC
    · rw [if_pos hc]
      simp only [BLOCK_SIZE]
      by_cases hp : 4096 - cb > cap
      · rw [if_pos hp]
        have := ih (memcpy buf rbytes (block_read disk (sb.data_start_index + rb)) cb cap)
          (FAT rb) 0 (rbytes + cap) 0 (le_refl _) (by norm_num)
        omega
      · rw [if_neg hp]
        have := ih (if cb = 0 then memcpy buf rbytes (block_read disk (sb.data_start_index + rb)) 0 4096
            else memcpy buf rbytes (block_read disk (sb.data_start_index + rb)) cb (4096 - cb))
          (FAT rb) (cap - (4096 - cb)) (rbytes + (4096 - cb)) 0 (le_refl _) (by norm_num)
        omega
    · rw [if_neg hc]; exact ⟨le_refl _, by show rbytes ≤ _; omega⟩

theorem read_loop_chain (sb : SuperBlock) (FAT : Int → Int) (disk : Int → Block) :
    ∀ (c : List Int) (fuel : Nat) (buf : Int → Int) (rb cap rbytes cb : Int),
      IsChain FAT rb c → 0 ≤ cap → 0 ≤ cb → cb < 4096 → cb + cap ≤ 4096 * c.length →
      cap ≤ fuel →
      fs_read.loop sb FAT disk fuel buf rb cap rbytes cb
        = (fun j => if rbytes ≤ j ∧ j < rbytes + cap then
              block_read disk
                (sb.data_start_index + c.getD ((cb + (j - rbytes)) / 4096).toNat FAT_EOC)
                ((cb + (j - rbytes)) % 4096)
            else buf j, rbytes + cap) := by
  intro c
  induction c with
  | nil =>
    intro fuel buf rb cap rbytes cb hc h0 h1 h2 h3 hf
    simp only [List.length_nil, Nat.cast_zero, mul_zero] at h3
    have e : cap = 0 := by omega
    subst e
    rw [read_loop_done sb FAT disk fuel buf rb 0 rbytes cb (by omega)]
    refine Prod.ext ?_ (by simp)
    funext j
    show buf j = if rbytes ≤ j ∧ j < rbytes + 0 then _ else buf j
    rw [if_neg (by omega)]
  | cons b rest ih =>
    intro fuel buf rb cap rbytes cb hc h0 h1 h2 h3 hf
    obtain ⟨hb, hne, hrest⟩ := hc
    subst hb
    simp only [List.length_cons, Nat.cast_add, Nat.cast_one] at h3
    by_cases hz : cap = 0
    · subst hz
      rw [read_loop_done sb FAT disk fuel buf rb 0 rbytes cb (by omega)]
      refine Prod.ext ?_ (by simp)
      funext j
      show buf j = if rbytes ≤ j ∧ j < rbytes + 0 then _ else buf j
      rw [if_neg (by omega)]
    · obtain ⟨n, hn⟩ : ∃ n, fuel = n + 1 := ⟨fuel - 1, by omega⟩
      subst hn
      rw [fs_read.loop, if_pos ⟨by omega, hne⟩]
      simp only [BLOCK_SIZE]
      by_cases hp : 4096 - cb > cap
      · rw [if_pos hp, read_loop_done sb FAT disk n _ _ 0 _ 0 (by omega)]
        refine Prod.ext ?_ rfl
        funext j
        show memcpy buf rbytes (block_read disk (sb.data_start_index + rb)) cb cap j
          = if rbytes ≤ j ∧ j < rbytes + cap then
              block_read disk (sb.data_start_index
                + (rb :: rest).getD ((cb + (j - rbytes)) / 4096).toNat FAT_EOC)
                ((cb + (j - rbytes)) % 4096)
            else buf j
        unfold memcpy
        by_cases hj : rbytes ≤ j ∧ j < rbytes + cap
        · rw [if_pos hj, if_pos hj]
          have e1 : ((cb + (j - rbytes)) / 4096).toNat = 0 := by omega
          have e2 : (cb + (j - rbytes)) % 4096 = cb + (j - rbytes) := by omega
          rw [e1, e2]
          rfl
        · rw [if_neg hj, if_neg hj]
      · rw [if_neg hp]
        have hbuf : (if cb = 0 then
              memcpy buf rbytes (block_read disk (sb.data_start_index + rb)) 0 4096
            else memcpy buf rbytes (block_read disk (sb.data_start_index + rb)) cb (4096 - cb))
            = memcpy buf rbytes (block_read disk (sb.data_start_index + rb)) cb (4096 - cb) := by
          by_cases hcb : cb = 0
          · rw [if_pos hcb, hcb]; rfl
          · rw [if_neg hcb]
        rw [hbuf, ih n _ (FAT rb) (cap - (4096 - cb)) (rbytes + (4096 - cb)) 0 hrest
          (by omega) (le_refl _) (by norm_num) (by omega) (by push_cast at hf; omega)]
        refine Prod.ext ?_ (by show rbytes + (4096 - cb) + (cap - (4096 - cb)) = rbytes + cap; omega)
        funext j
        show (if rbytes + (4096 - cb) ≤ j ∧ j < rbytes + (4096 - cb) + (cap - (4096 - cb)) then
              block_read disk (sb.data_start_index
                + rest.getD ((0 + (j - (rbytes + (4096 - cb)))) / 4096).toNat FAT_EOC)
                ((0 + (j - (rbytes + (4096 - cb)))) % 4096)
            else memcpy buf rbytes (block_read disk (sb.data_start_index + rb)) cb (4096 - cb) j)
          = if rbytes ≤ j ∧ j < rbytes + cap then
              block_read disk (sb.data_start_index
                + (rb :: rest).getD ((cb + (j - rbytes)) / 4096).toNat FAT_EOC)
                ((cb + (j - rbytes)) % 4096)
            else buf j
        by_cases hj1 : rbytes + (4096 - cb) ≤ j ∧ j < rbytes + (4096 - cb) + (cap - (4096 - cb))
        · rw [if_pos hj1, if_pos (by omega)]
          have e1 : ((cb + (j - rbytes)) / 4096).toNat
              = ((0 + (j - (rbytes + (4096 - cb)))) / 4096).toNat + 1 := by omega
          have e2 : (cb + (j - rbytes)) % 4096 = (0 + (j - (rbytes + (4096 - cb)))) % 4096 := by
            omega
          rw [e1, e2, List.getD_cons_succ]
        · rw [if_neg hj1]
          unfold memcpy
          by_cases hj2 : rbytes ≤ j ∧ j < rbytes + (4096 - cb)
          · rw [if_pos hj2, if_pos (by omega)]
            have e1 : ((cb + (j - rbytes)) / 4096).toNat = 0 := by omega
            have e2 : (cb + (j - rbytes)) % 4096 = cb + (j - rbytes) := by omega
            rw [e1, e2]
            rfl
          · rw [if_neg hj2, if_neg (by omega)]

theorem isChain_drop (FAT : Int → Int) :
    ∀ (k : Nat) (c : List Int) (head : Int), IsChain FAT head c →
      IsChain FAT (c.getD k FAT_EOC) (c.drop k) := by
  intro k
  induction k with
  | zero =>
    intro c head h
    rw [isChain_head FAT c head h]
    exact h
  | succ k ih =>
    intro c head h
    cases c with
    | nil => exact rfl
    | cons b rest =>
      rw [List.getD_cons_succ, List.drop_succ_cons]
      exact ih rest (FAT b) h.2.2

theorem getD_drop (d : Int) :
    ∀ (k : Nat) (c : List Int) (m : Nat), (c.drop k).getD m d = c.getD (k + m) d := by
  intro k
  induction k with
  | zero => intro c m; rw [List.drop_zero, Nat.zero_add]
  | succ k ih =>
    intro c m
    cases c with
    | nil => rfl
    | cons b rest =>
      rw [List.drop_succ_cons, ih rest m, Nat.succ_add, List.getD_cons_succ]


theorem getCurrentPosition_chain (s : State) (fd : Int) (c : List Int)
    (hO : 0 ≤ (s.OpenTable.table fd).offset)
    (hchain : IsChain s.FAT (s.RootDir (s.OpenTable.table fd).index).data_index c) :
    GetCurrentPosition s fd = c.getD ((s.OpenTable.table fd).offset / 4096).toNat FAT_EOC := by
  unfold GetCurrentPosition
  exact getCurrentPosition_loop_chain s.FAT _ c _ _ hchain hO (by
    have := Int.ediv_le_self 4096 hO
    omega)

/-- The function `fs_read` on a mounted volume, for an active descriptor, a
buffer that is not null and a count above 0. -/
theorem fs_read_eq (L : Limits) (s : State) (sb : SuperBlock) (fd : Int) (buf : Int → Int)
    (count : Int) (hs : s.SBlock = some sb) (hfd : 0 ≤ fd ∧ fd ≤ L.FS_OPEN_MAX_COUNT - 1)
    (hact : (s.OpenTable.table fd).index ≠ FAT_EOC) (hcount : 0 < count) :
    fs_read L s fd (some buf) count =
      ((fs_read.loop sb s.FAT s.disk (fs_read.capacity s fd count).toNat buf
          (GetCurrentPosition s fd) (fs_read.capacity s fd count) 0
          (Int.tmod (s.OpenTable.table fd).offset BLOCK_SIZE)).2,
       (fs_lseek L s fd (toSizeT ((s.OpenTable.table fd).offset
          + (fs_read.loop sb s.FAT s.disk (fs_read.capacity s fd count).toNat buf
              (GetCurrentPosition s fd) (fs_read.capacity s fd count) 0
              (Int.tmod (s.OpenTable.table fd).offset BLOCK_SIZE)).2))).2,
       some (fs_read.loop sb s.FAT s.disk (fs_read.capacity s fd count).toNat buf
          (GetCurrentPosition s fd) (fs_read.capacity s fd count) 0
          (Int.tmod (s.OpenTable.table fd).offset BLOCK_SIZE)).1) := by
  have hfd' : ¬ (fd < 0 ∨ fd > L.FS_OPEN_MAX_COUNT - 1) := by omega
  have hc' : ¬ count ≤ 0 := by omega
  unfold fs_read
  rw [hs]
  simp only [hfd', hact, hc', if_false]
  rfl

theorem fs_read_zero (L : Limits) (s : State) (sb : SuperBlock) (fd : Int) (buf : Int → Int)
    (count : Int) (hs : s.SBlock = some sb) (hfd : 0 ≤ fd ∧ fd ≤ L.FS_OPEN_MAX_COUNT - 1)
    (hact : (s.OpenTable.table fd).index ≠ FAT_EOC) (hcount : count ≤ 0) :
    fs_read L s fd (some buf) count = (0, s, some buf) := by
  have hfd' : ¬ (fd < 0 ∨ fd > L.FS_OPEN_MAX_COUNT - 1) := by omega
  unfold fs_read
  rw [hs]
  simp only [hfd', hact, hcount, if_false, if_true]

theorem read_capacity_eq (s : State) (fd : Int) (count : Int)
    (hO : 0 ≤ (s.OpenTable.table fd).offset)
    (hOS : (s.OpenTable.table fd).offset ≤ (s.RootDir (s.OpenTable.table fd).index).file_size)
    (hS : (s.RootDir (s.OpenTable.table fd).index).file_size ≤ 2147483647)
    (hc : 0 ≤ count)
    (hw : (s.OpenTable.table fd).offset + count < 18446744073709551616) :
    fs_read.capacity s fd count
      = min count ((s.RootDir (s.OpenTable.table fd).index).file_size
          - (s.OpenTable.table fd).offset) := by
  unfold fs_read.capacity toSizeT toInt32 toUInt32
  generalize (s.RootDir (s.OpenTable.table fd).index).file_size = S at *
  generalize (s.OpenTable.table fd).offset = O at *
  split_ifs <;> omega


/-- The result of the loop of `fs_read` that starts at the offset `O` of a file
whose chain `c` holds at least `O + cap` bytes. -/
theorem read_loop_file (sb : SuperBlock) (s : State) (fd : Int) (buf : Int → Int)
    (c : List Int) (cap : Int)
    (hO : 0 ≤ (s.OpenTable.table fd).offset)
    (hchain : IsChain s.FAT (s.RootDir (s.OpenTable.table fd).index).data_index c)
    (hcap : 0 ≤ cap)
    (hlen : (s.OpenTable.table fd).offset + cap ≤ 4096 * c.length) :
    (fs_read.loop sb s.FAT s.disk cap.toNat buf (GetCurrentPosition s fd) cap 0
        (Int.tmod (s.OpenTable.table fd).offset BLOCK_SIZE)).2 = cap
    ∧ (∀ j, 0 ≤ j → j < cap →
        (fs_read.loop sb s.FAT s.disk cap.toNat buf (GetCurrentPosition s fd) cap 0
          (Int.tmod (s.OpenTable.table fd).offset BLOCK_SIZE)).1 j
          = fileByte sb s.disk c ((s.OpenTable.table fd).offset + j))
    ∧ (∀ j, ¬ (0 ≤ j ∧ j < cap) →
        (fs_read.loop sb s.FAT s.disk cap.toNat buf (GetCurrentPosition s fd) cap 0
          (Int.tmod (s.OpenTable.table fd).offset BLOCK_SIZE)).1 j = buf j) := by
  have hcbe : Int.tmod (s.OpenTable.table fd).offset BLOCK_SIZE
      = (s.OpenTable.table fd).offset % 4096 := Int.tmod_eq_emod hO (by norm_num)
  rw [hcbe, getCurrentPosition_chain s fd c hO hchain]
  generalize (s.OpenTable.table fd).offset = O at *
  have hdl : (((c.drop (O / 4096).toNat).length : Nat) : Int) = c.length - O / 4096 := by
    rw [List.length_drop]; omega
  rw [read_loop_chain sb s.FAT s.disk (c.drop (O / 4096).toNat) cap.toNat buf _ cap 0
    (O % 4096) (isChain_drop s.FAT _ c _ hchain) hcap (by omega) (by omega) (by omega)
    (by omega)]
  refine ⟨by show 0 + cap = cap; omega, ?_, ?_⟩
  · intro j h0 h1
    show (if 0 ≤ j ∧ j < 0 + cap then
        block_read s.disk (sb.data_start_index
          + (c.drop (O / 4096).toNat).getD ((O % 4096 + (j - 0)) / 4096).toNat FAT_EOC)
          ((O % 4096 + (j - 0)) % 4096)
      else buf j) = _
    rw [if_pos ⟨h0, by omega⟩, getD_drop]
    unfold fileByte
    simp only [BLOCK_SIZE]
    have e1 : (O / 4096).toNat + ((O % 4096 + (j - 0)) / 4096).toNat = ((O + j) / 4096).toNat := by
      omega
    have e2 : (O % 4096 + (j - 0)) % 4096 = (O + j) % 4096 := by omega
    rw [e1, e2]
  · intro j hj
    show (if 0 ≤ j ∧ j < 0 + cap then _ else buf j) = _
    rw [if_neg (by omega)]

/-- C14, as amended: on a mounted volume, for an active descriptor with offset
`O` and a file of stored size `S` with `0 <= O <= S <= INT_MAX`, a buffer that
is not null and a count with `O + count < 2 ^ 64`, `fs_read` returns `r` with
`0 <= r <= min(count, S - O)`; afterwards the offset of the descriptor is
`O + r`, and the superblock, the FAT, the root directory, the device, the count
of open files, the other descriptors and the binding of this one are as before.
When the chain `c` of the file holds at least `S` bytes, `r = min(count, S - O)`,
the bytes 0, ..., `r - 1` of the buffer are the bytes `O`, ..., `O + r - 1` of
the file and the other bytes of the buffer are as before. -/
theorem read_within_file (L : Limits) (s : State) (sb : SuperBlock) (fd : Int)
    (buf : Int → Int) (count : Int) (r : Int) (s' : State) (buf' : Option (Int → Int))
    (h : fs_read L s fd (some buf) count = (r, s', buf'))
    (hs : s.SBlock = some sb)
    (hfd : 0 ≤ fd ∧ fd ≤ L.FS_OPEN_MAX_COUNT - 1)
    (hact : (s.OpenTable.table fd).index ≠ FAT_EOC)
    (hO : 0 ≤ (s.OpenTable.table fd).offset)
    (hOS : (s.OpenTable.table fd).offset ≤ (s.RootDir (s.OpenTable.table fd).index).file_size)
    (hS : (s.RootDir (s.OpenTable.table fd).index).file_size ≤ 2147483647)
    (hc : 0 ≤ count)
    (hw : (s.OpenTable.table fd).offset + count < 18446744073709551616) :
    (0 ≤ r ∧ r ≤ min count ((s.RootDir (s.OpenTable.table fd).index).file_size
        - (s.OpenTable.table fd).offset))
    ∧ (s'.OpenTable.table fd).offset = (s.OpenTable.table fd).offset + r
    ∧ (s'.OpenTable.table fd).index = (s.OpenTable.table fd).index
    ∧ (∀ i, i ≠ fd → s'.OpenTable.table i = s.OpenTable.table i)
    ∧ s'.OpenTable.open_files = s.OpenTable.open_files
    ∧ s'.SBlock = s.SBlock ∧ s'.FAT = s.FAT ∧ s'.RootDir = s.RootDir ∧ s'.disk = s.disk
    ∧ (∀ c : List Int,
        IsChain s.FAT (s.RootDir (s.OpenTable.table fd).index).data_index c →
        (s.RootDir (s.OpenTable.table fd).index).file_size ≤ BLOCK_SIZE * c.length →
        r = min count ((s.RootDir (s.OpenTable.table fd).index).file_size
            - (s.OpenTable.table fd).offset)
        ∧ ∃ b', buf' = some b'
          ∧ (∀ j, 0 ≤ j → j < r → b' j = fileByte sb s.disk c ((s.OpenTable.table fd).offset + j))
          ∧ (∀ j, ¬ (0 ≤ j ∧ j < r) → b' j = buf j)) := by
  by_cases hc0 : count ≤ 0
  · rw [fs_read_zero L s sb fd buf count hs hfd hact hc0] at h
    obtain ⟨hr, h2⟩ := Prod.mk.inj h
    obtain ⟨hs', hb'⟩ := Prod.mk.inj h2
    subst hr hs' hb'
    refine ⟨⟨le_refl _, by omega⟩, by omega, rfl, fun _ _ => rfl, rfl, rfl, rfl, rfl, rfl, ?_⟩
    intro c _ _
    exact ⟨by omega, buf, rfl, fun j h0 h1 => by omega, fun _ _ => rfl⟩
  · have hcap := read_capacity_eq s fd count hO hOS hS hc hw
    have hcb0 := Int.tmod_nonneg (4096 : Int) hO
    have hcb1 := Int.tmod_lt_of_pos (s.OpenTable.table fd).offset (by norm_num : (0 : Int) < 4096)
    have hbnd := read_loop_bounds sb s.FAT s.disk (fs_read.capacity s fd count).toNat buf
      (GetCurrentPosition s fd) (fs_read.capacity s fd count) 0
      (Int.tmod (s.OpenTable.table fd).offset 4096) hcb0 hcb1
    have hch : ∀ c : List Int,
        IsChain s.FAT (s.RootDir (s.OpenTable.table fd).index).data_index c →
        (s.RootDir (s.OpenTable.table fd).index).file_size ≤ 4096 * c.length → _ :=
      fun c hchain hlen => read_loop_file sb s fd buf c (fs_read.capacity s fd count) hO hchain
        (by omega) (by omega)
    rw [fs_read_eq L s sb fd buf count hs hfd hact (by omega)] at h
    simp only [BLOCK_SIZE] at h hch ⊢
    generalize hlr : fs_read.loop sb s.FAT s.disk (fs_read.capacity s fd count).toNat buf
      (GetCurrentPosition s fd) (fs_read.capacity s fd count) 0
      (Int.tmod (s.OpenTable.table fd).offset 4096) = lr at h hbnd hch
    rw [hcap] at hbnd hch
    obtain ⟨hr, h2⟩ := Prod.mk.inj h
    obtain ⟨hs', hb'⟩ := Prod.mk.inj h2
    subst hr hs' hb'
    have hst : fs_stat L s fd = (s.RootDir (s.OpenTable.table fd).index).file_size := by
      rw [fs_stat_active L s sb fd hs hfd hact]
      exact toInt32_of_range (by omega) hS
    have hoffs : toInt32 (toSizeT ((s.OpenTable.table fd).offset + lr.2))
        = (s.OpenTable.table fd).offset + lr.2 := by
      rw [toInt32_toSizeT]; exact toInt32_of_range (by omega) (by omega)
    refine ⟨⟨by omega, by omega⟩, ?_, fs_lseek_index _ _ _ _ _,
      fun i hi => fs_lseek_other _ _ _ _ i hi, fs_lseek_open_files _ _ _ _,
      fs_lseek_SBlock _ _ _ _, fs_lseek_FAT _ _ _ _, fs_lseek_RootDir _ _ _ _,
      fs_lseek_disk _ _ _ _, ?_⟩
    · rw [fs_lseek_offset L s fd _ (by rw [hst]; omega) (by rw [hst, hoffs]; omega), hoffs]
    · intro c hchain hlen
      obtain ⟨e1, e2, e3⟩ := hch c hchain hlen
      refine ⟨e1, lr.1, rfl, ?_, ?_⟩
      · intro j h0 h1; exact e2 j h0 (by omega)
      · intro j hj; exact e3 j (by omega)


/-- C14 at `fs_read(0, buf, 5)` on `tenByteFile` (offset 0, size 10), whose
chain is the single block 1. -/
theorem read_within_file_witness :
    (0 ≤ fiveBytesRead.1
      ∧ fiveBytesRead.1 ≤ min 5 ((tenByteFile.RootDir (tenByteFile.OpenTable.table 0).index).file_size
        - (tenByteFile.OpenTable.table 0).offset))
    ∧ (fiveBytesRead.2.1.OpenTable.table 0).offset
        = (tenByteFile.OpenTable.table 0).offset + fiveBytesRead.1
    ∧ fiveBytesRead.2.1.FAT = tenByteFile.FAT
    ∧ fiveBytesRead.2.1.RootDir = tenByteFile.RootDir
    ∧ fiveBytesRead.2.1.disk = tenByteFile.disk
    ∧ (fiveBytesRead.1 = min 5 ((tenByteFile.RootDir (tenByteFile.OpenTable.table 0).index).file_size
            - (tenByteFile.OpenTable.table 0).offset)
        ∧ ∃ b', fiveBytesRead.2.2 = some b'
          ∧ (∀ j, 0 ≤ j → j < fiveBytesRead.1 →
              b' j = fileByte smallSuper tenByteFile.disk [1]
                ((tenByteFile.OpenTable.table 0).offset + j))
          ∧ (∀ j, ¬ (0 ≤ j ∧ j < fiveBytesRead.1) → b' j = (fun _ => 0) j)) :=
  have t := read_within_file stdLimits tenByteFile smallSuper 0 (fun _ => 0) 5
    fiveBytesRead.1 fiveBytesRead.2.1 fiveBytesRead.2.2 rfl rfl
    (by decide) (by decide) (by decide) (by decide) (by decide) (by decide) (by decide)
  ⟨t.1, t.2.1, t.2.2.2.2.2.2.1, t.2.2.2.2.2.2.2.1, t.2.2.2.2.2.2.2.2.1,
    t.2.2.2.2.2.2.2.2.2 [1]
      ⟨rfl, by decide, (by decide : tenByteFile.FAT 1 = FAT_EOC)⟩ (by decide)⟩

/-! ## C1: a new file, written and read back -/

theorem rootEmptySearch_loop_spec (R : Int → RootEntry) (nm : List Int) :
    ∀ (n : Nat) (i idx : Int) (flag : Bool),
      RootEmptySearch.loop R nm n i idx flag ≠ -1 →
      (∀ k, i ≤ k → k < i + n → (R k).filename ≠ nm)
      ∧ (RootEmptySearch.loop R nm n i idx flag = idx
        ∨ (i ≤ RootEmptySearch.loop R nm n i idx flag
          ∧ RootEmptySearch.loop R nm n i idx flag < i + n)) := by
  intro n
  induction n with
  | zero =>
    intro i idx flag _
    exact ⟨fun k h1 h2 => by simp at h2; omega, Or.inl rfl⟩
  | succ n ih =>
    intro i idx flag h
    rw [RootEmptySearch.loop] at h ⊢
    by_cases hnm : (R i).filename = nm
    · simp only [hnm, if_true] at h
      exact absurd rfl h
    · simp only [hnm, if_false] at h ⊢
      obtain ⟨a, b⟩ := ih (i + 1) _ _ h
      refine ⟨?_, ?_⟩
      · intro k h1 h2
        by_cases hk : k = i
        · rw [hk]; exact hnm
        · exact a k (by omega) (by push_cast at h2; omega)
      · rcases b with b | ⟨b1, b2⟩
        · rw [b]
          by_cases hf : (decide ((R i).filename = []) && !flag) = true
          · rw [if_pos hf]; exact Or.inr ⟨le_refl _, by push_cast; omega⟩
          · rw [if_neg hf]; exact Or.inl rfl
        · exact Or.inr ⟨by omega, by push_cast; omega⟩

theorem rootNameSearch_loop_first (R : Int → RootEntry) (nm : List Int) (ci : Int)
    (hci : (R ci).filename = nm) :
    ∀ (n : Nat) (i : Int), i ≤ ci → ci < i + n →
      (∀ k, i ≤ k → k < ci → (R k).filename ≠ nm) →
      RootNameSearch.loop R nm n i = ci := by
  intro n
  induction n with
  | zero => intro i h1 h2 _; simp at h2; omega
  | succ n ih =>
    intro i h1 h2 h3
    rw [RootNameSearch.loop]
    by_cases hi : i = ci
    · rw [hi, if_pos hci]
    · rw [if_neg (h3 i (le_refl _) (by omega))]
      exact ih (i + 1) (by omega) (by push_cast at h2; omega)
        (fun k a b => h3 k (by omega) b)

theorem rootNameSearch_loop_congr (R R' : Int → RootEntry) (nm : List Int)
    (h : ∀ i, (R' i).filename = (R i).filename) :
    ∀ (n : Nat) (i : Int), RootNameSearch.loop R' nm n i = RootNameSearch.loop R nm n i := by
  intro n
  induction n with
  | zero => intro i; rfl
  | succ n ih =>
    intro i
    rw [RootNameSearch.loop, RootNameSearch.loop, h i, ih (i + 1)]

theorem fs_create_cases (L : Limits) (s : State) (sb : SuperBlock) (nm : List Int)
    (hs : s.SBlock = some sb) :
    fs_create L s (some nm) = (-1, s)
    ∨ (RootEmptySearch L s nm ≠ -1
      ∧ fs_create L s (some nm) =
        (0, { s with
          RootDir := setAt s.RootDir (RootEmptySearch L s nm)
            { filename := nm, file_size := 0, data_index := FAT_EOC }
          disk := block_write s.disk sb.root_start_index
            (Block.root (setAt s.RootDir (RootEmptySearch L s nm)
              { filename := nm, file_size := 0, data_index := FAT_EOC })) })) := by
  unfold fs_create
  rw [hs]
  simp only []
  by_cases h1 : (nm.length : Int) + 1 > L.FS_FILENAME_LEN
  · rw [if_pos h1]; exact Or.inl rfl
  · rw [if_neg h1]
    by_cases h2 : cstrAt nm ((nm.length : Int) + 1 - 1) ≠ 0
    · rw [if_pos h2]; exact Or.inl rfl
    · rw [if_neg h2]
      by_cases h3 : RootEmptySearch L s nm = -1
      · rw [if_pos h3]; exact Or.inl rfl
      · rw [if_neg h3]; exact Or.inr ⟨h3, rfl⟩

/-- After a successful `fs_create` the name resolves to a directory slot that
holds the new, empty file. -/
theorem fs_create_ok (L : Limits) (s : State) (sb : SuperBlock) (nm : List Int)
    (hs : s.SBlock = some sb) (h : (fs_create L s (some nm)).1 = 0) :
    (fs_create L s (some nm)).2.SBlock = some sb
    ∧ (fs_create L s (some nm)).2.FAT = s.FAT
    ∧ (fs_create L s (some nm)).2.OpenTable = s.OpenTable
    ∧ 0 ≤ RootNameSearch L (fs_create L s (some nm)).2 nm
    ∧ RootNameSearch L (fs_create L s (some nm)).2 nm < L.FS_OPEN_MAX_COUNT
    ∧ (fs_create L s (some nm)).2.RootDir (RootNameSearch L (fs_create L s (some nm)).2 nm)
        = { filename := nm, file_size := 0, data_index := FAT_EOC } := by
  rcases fs_create_cases L s sb nm hs with e | ⟨hne, e⟩
  · rw [e] at h; simp at h
  · rw [e]
    unfold RootEmptySearch at hne
    obtain ⟨a, b⟩ := rootEmptySearch_loop_spec s.RootDir nm L.FS_OPEN_MAX_COUNT.toNat 0 (-1)
      false hne
    have hr : 0 ≤ RootEmptySearch L s nm
        ∧ RootEmptySearch L s nm < 0 + ((L.FS_OPEN_MAX_COUNT.toNat : Nat) : Int) := by
      unfold RootEmptySearch
      rcases b with b | b
      · exact absurd b hne
      · exact b
    have hfound : RootNameSearch L
        { s with
          RootDir := setAt s.RootDir (RootEmptySearch L s nm)
            { filename := nm, file_size := 0, data_index := FAT_EOC }
          disk := block_write s.disk sb.root_start_index
            (Block.root (setAt s.RootDir (RootEmptySearch L s nm)
              { filename := nm, file_size := 0, data_index := FAT_EOC })) } nm
        = RootEmptySearch L s nm := by
      show RootNameSearch.loop (setAt s.RootDir (RootEmptySearch L s nm)
          { filename := nm, file_size := 0, data_index := FAT_EOC }) nm
          L.FS_OPEN_MAX_COUNT.toNat 0 = _
      apply rootNameSearch_loop_first _ nm _ (by rw [setAt_same]) _ 0 hr.1 hr.2
      intro k h1 h2
      rw [setAt_ne _ _ (by omega)]
      exact a k h1 (by omega)
    rw [hfound]
    refine ⟨hs, rfl, rfl, hr.1, by omega, ?_⟩
    show setAt s.RootDir (RootEmptySearch L s nm) _ (RootEmptySearch L s nm) = _
    rw [setAt_same]

theorem firstEmptyFD_loop_spec (t : Int → FD) :
    ∀ (n : Nat) (i : Int), FirstEmptyFD.loop t n i = -1
      ∨ (i ≤ FirstEmptyFD.loop t n i ∧ FirstEmptyFD.loop t n i < i + n
        ∧ (t (FirstEmptyFD.loop t n i)).index = FAT_EOC) := by
  intro n
  induction n with
  | zero => intro i; exact Or.inl rfl
  | succ n ih =>
    intro i
    rw [FirstEmptyFD.loop]
    by_cases h0 : (t i).index = FAT_EOC
    · rw [if_pos h0]; exact Or.inr ⟨le_refl _, by push_cast; omega, h0⟩
    · rw [if_neg h0]
      rcases ih (i + 1) with h | ⟨a, b, c⟩
      · exact Or.inl h
      · exact Or.inr ⟨by omega, by push_cast; omega, c⟩

theorem firstEmptyFD_loop_congr (t t' : Int → FD) (h : ∀ i, (t' i).index = (t i).index) :
    ∀ (n : Nat) (i : Int), FirstEmptyFD.loop t' n i = FirstEmptyFD.loop t n i := by
  intro n
  induction n with
  | zero => intro i; rfl
  | succ n ih =>
    intro i
    rw [FirstEmptyFD.loop, FirstEmptyFD.loop, h i, ih (i + 1)]

/-- The function `fs_open` on a mounted volume, for a name that is not null. -/
theorem fs_open_eq (L : Limits) (s : State) (sb : SuperBlock) (nm : List Int)
    (hs : s.SBlock = some sb) :
    fs_open L s (some nm) =
      if (nm.length : Int) > L.FS_FILENAME_LEN - 1 ∨ s.OpenTable.open_files = L.FS_OPEN_MAX_COUNT
          ∨ RootNameSearch L s nm = -1 then (-1, s)
      else
        (FirstEmptyFD L s, { s with
          OpenTable :=
            { table := setAt s.OpenTable.table (FirstEmptyFD L s)
                { index := RootNameSearch L s nm, offset := 0 }
              open_files := s.OpenTable.open_files + 1 } }) := by
  unfold fs_open
  rw [hs]
  simp only []
  by_cases h1 : (nm.length : Int) > L.FS_FILENAME_LEN - 1
  · rw [if_pos h1, if_pos (Or.inl h1)]
  · rw [if_neg h1]
    by_cases h2 : s.OpenTable.open_files = L.FS_OPEN_MAX_COUNT
    · rw [if_pos h2, if_pos (Or.inr (Or.inl h2))]
    · rw [if_neg h2]
      by_cases h3 : RootNameSearch L s nm = -1
      · rw [if_pos h3, if_pos (Or.inr (Or.inr h3))]
      · rw [if_neg h3, if_neg (by tauto)]

theorem fs_close_ok (L : Limits) (s : State) (sb : SuperBlock) (fd : Int)
    (hs : s.SBlock = some sb) (hfd : 0 ≤ fd ∧ fd ≤ L.FS_OPEN_MAX_COUNT - 1)
    (hof : s.OpenTable.open_files ≠ 0) (hact : (s.OpenTable.table fd).index ≠ FAT_EOC) :
    fs_close L s fd =
      (0, { s with
        OpenTable :=
          { table := setAt s.OpenTable.table fd { index := FAT_EOC, offset := 0 }
            open_files := s.OpenTable.open_files - 1 } }) := by
  have hfd' : ¬ (fd < 0 ∨ fd > L.FS_OPEN_MAX_COUNT - 1) := by omega
  unfold fs_close
  rw [hs]
  simp only [hfd', hof, hact, if_false]


theorem holdsData_congr (sb : SuperBlock) (disk disk' : Int → Block) (B : Int → Int)
    (h : ∀ x, sb.data_start_index ≤ x → disk' x = disk x) :
    ∀ (c : List Int) (cap off : Int), (∀ b ∈ c, 0 ≤ b) →
      HoldsData sb disk B c cap off → HoldsData sb disk' B c cap off := by
  intro c
  induction c with
  | nil => intro cap off _ hd; exact hd
  | cons b rest ih =>
    intro cap off hb hd
    obtain ⟨h1, h2, h3⟩ := hd
    refine ⟨h1, ?_, ih _ _ (fun x hx => hb x (List.mem_cons_of_mem _ hx)) h3⟩
    intro j a1 a2 a3
    have hb0 := hb b (List.mem_cons_self _ _)
    unfold block_read
    rw [h _ (by omega)]
    exact h2 j a1 a2 a3

theorem holdsData_fileByte (sb : SuperBlock) (disk : Int → Block) (B : Int → Int) :
    ∀ (c : List Int) (cap off p : Int), HoldsData sb disk B c cap off → 0 ≤ p → p < cap →
      fileByte sb disk c p = B (off + p) := by
  intro c
  induction c with
  | nil =>
    intro cap off p hd h0 h1
    have : cap ≤ 0 := hd
    omega
  | cons b rest ih =>
    intro cap off p hd h0 h1
    obtain ⟨_, h2, h3⟩ := hd
    unfold fileByte
    simp only [BLOCK_SIZE] at h2 h3 ⊢
    by_cases hp : p < 4096
    · have e1 : (p / 4096).toNat = 0 := by omega
      have e2 : p % 4096 = p := by omega
      rw [e1, e2]
      exact h2 p h0 hp h1
    · have e1 : (p / 4096).toNat = ((p - 4096) / 4096).toNat + 1 := by omega
      have e2 : p % 4096 = (p - 4096) % 4096 := by omega
      have := ih (cap - 4096) (off + 4096) (p - 4096) h3 (by omega) (by omega)
      unfold fileByte at this
      simp only [BLOCK_SIZE] at this
      rw [e1, e2, List.getD_cons_succ, this]
      congr 1
      omega

theorem new_head_filename (s : State) (fd : Int) (wb : Int) (i : Int) :
    ((fs_write.new_head s fd wb).RootDir i).filename = (s.RootDir i).filename := by
  show (setAt s.RootDir (s.OpenTable.table fd).index _ i).filename = _
  by_cases h : i = (s.OpenTable.table fd).index
  · rw [h, setAt_same]
  · rw [setAt_ne _ _ h]

theorem fs_stat_congr (L : Limits) (s t : State) (fd : Int) (h1 : t.SBlock = s.SBlock)
    (h2 : (t.OpenTable.table fd).index = (s.OpenTable.table fd).index)
    (h3 : t.RootDir = s.RootDir) : fs_stat L t fd = fs_stat L s fd := by
  unfold fs_stat
  rw [h1, h2, h3]

/-- A write of `n` bytes to a new file (no block, size 0, offset 0) on a volume
with enough free blocks: all `n` bytes are written, the size is `n`, and the
chain of the file holds the bytes written. -/
theorem write_fresh_file (L : Limits) (s : State) (sb : SuperBlock) (fd : Int)
    (B : Int → Int) (n : Int) (r : Int) (s' : State)
    (h : fs_write L s fd (some B) n = (r, s'))
    (hs : s.SBlock = some sb) (hfd : 0 ≤ fd ∧ fd ≤ L.FS_OPEN_MAX_COUNT - 1)
    (hact : (s.OpenTable.table fd).index ≠ FAT_EOC)
    (hd : sb.data_block_count ≤ 65535)
    (hroot : sb.root_start_index < sb.data_start_index)
    (hfat : sb.fat_block_count < sb.data_start_index)
    (hn : 0 < n)
    (hhead : (s.RootDir (s.OpenTable.table fd).index).data_index = FAT_EOC)
    (hsize : (s.RootDir (s.OpenTable.table fd).index).file_size = 0)
    (hoff : (s.OpenTable.table fd).offset = 0)
    (hfree : (n + 4095) / 4096 ≤ free_fat_count sb s.FAT) :
    r = n
    ∧ s'.SBlock = some sb
    ∧ s'.OpenTable.open_files = s.OpenTable.open_files
    ∧ (∀ i, (s'.OpenTable.table i).index = (s.OpenTable.table i).index)
    ∧ (∀ i, (s'.RootDir i).filename = (s.RootDir i).filename)
    ∧ (s'.RootDir (s.OpenTable.table fd).index).file_size = n
    ∧ ∃ c : List Int, IsChain s'.FAT (s'.RootDir (s.OpenTable.table fd).index).data_index c
        ∧ n ≤ 4096 * c.length
        ∧ ∀ p, 0 ≤ p → p < n → fileByte sb s'.disk c p = B p := by
  have hle := fat_loop_le s.FAT sb.data_block_count.toNat 0
  have hF : free_fat_count sb s.FAT = fs_info.fat_loop s.FAT sb.data_block_count.toNat 0 0 := rfl
  generalize free_fat_count sb s.FAT = F at hfree hF
  have hn2 : n ≤ 2147483647 := by omega
  have hF0 : 0 < F := by omega
  rw [hF] at hF0
  obtain ⟨nb, lr, c, hnb0, _, hr, hs', hc1, hc2, hc3, hc4, _, _⟩ :=
    write_new_file_core L s sb fd B n r s' h hs hfd hact hd hn hn2 hhead hoff hF0
  have hm : min n (4096 * free_fat_count sb s.FAT) = n := by
    show min n (4096 * fs_info.fat_loop s.FAT sb.data_block_count.toNat 0 0) = n
    rw [← hF]; omega
  rw [hm] at hc2 hc3
  have hlen := holdsData_length sb lr.2.1 B c n 0 hc2 (by omega)
  have hFAT : s'.FAT = lr.1 := by rw [hs', fs_lseek_FAT]; rfl
  have hidx : (s'.RootDir (s.OpenTable.table fd).index).data_index = nb := by
    rw [hs', fs_lseek_RootDir]
    exact (stored_data_index sb (fs_write.new_head s fd nb) fd lr).trans
      (new_head_data_index s fd nb)
  have hdisk : ∀ x, sb.data_start_index ≤ x → s'.disk x = lr.2.1 x := by
    intro x hx
    rw [hs', fs_lseek_disk]
    exact stored_disk_frame sb (fs_write.new_head s fd nb) fd lr x hroot hfat hx
  have hhold := holdsData_congr sb lr.2.1 s'.disk B hdisk c n 0
    (fun b hb => by have := (hc4 b hb).1; omega) hc2
  refine ⟨by rw [hr, hc3], ?_, ?_, ?_, ?_, ?_, c, ?_, by omega, ?_⟩
  · rw [hs', fs_lseek_SBlock]; exact hs
  · rw [hs', fs_lseek_open_files]; rfl
  · intro i; rw [hs', fs_lseek_index]; rfl
  · intro i
    rw [hs', fs_lseek_RootDir,
      (stored_rootDir_fields sb (fs_write.new_head s fd nb) fd lr i).1, new_head_filename]
  · rw [hs', fs_lseek_RootDir]
    have e := stored_file_size sb (fs_write.new_head s fd nb) fd lr
    have e2 := new_head_file_size s fd nb
    have e3 : ((fs_write.new_head s fd nb).OpenTable.table fd).index
        = (s.OpenTable.table fd).index := rfl
    rw [e3] at e
    rw [e, e2, hsize, hc3]
    unfold toUInt32; omega
  · rw [hFAT, hidx]; exact hc1
  · intro p h0 h1
    rw [holdsData_fileByte sb s'.disk B c n 0 p hhold h0 h1, zero_add]

/-- The result of `fs_read` at offset `O` of a file whose chain holds its
`S <= INT_MAX` bytes. -/
theorem read_from_chain (L : Limits) (s : State) (sb : SuperBlock) (fd : Int)
    (buf : Int → Int) (count : Int) (c : List Int)
    (hs : s.SBlock = some sb)
    (hfd : 0 ≤ fd ∧ fd ≤ L.FS_OPEN_MAX_COUNT - 1)
    (hact : (s.OpenTable.table fd).index ≠ FAT_EOC)
    (hO : 0 ≤ (s.OpenTable.table fd).offset)
    (hOS : (s.OpenTable.table fd).offset ≤ (s.RootDir (s.OpenTable.table fd).index).file_size)
    (hS : (s.RootDir (s.OpenTable.table fd).index).file_size ≤ 2147483647)
    (hc : 0 < count)
    (hw : (s.OpenTable.table fd).offset + count < 18446744073709551616)
    (hchain : IsChain s.FAT (s.RootDir (s.OpenTable.table fd).index).data_index c)
    (hlen : (s.RootDir (s.OpenTable.table fd).index).file_size ≤ 4096 * c.length) :
    (fs_read L s fd (some buf) count).1
      = min count ((s.RootDir (s.OpenTable.table fd).index).file_size
          - (s.OpenTable.table fd).offset)
    ∧ (∃ b', (fs_read L s fd (some buf) count).2.2 = some b'
        ∧ ∀ j, 0 ≤ j → j < min count ((s.RootDir (s.OpenTable.table fd).index).file_size
            - (s.OpenTable.table fd).offset) →
          b' j = fileByte sb s.disk c ((s.OpenTable.table fd).offset + j))
    ∧ fs_stat L (fs_read L s fd (some buf) count).2.1 fd = fs_stat L s fd := by
  have hcap := read_capacity_eq s fd count hO hOS hS (by omega) hw
  obtain ⟨e1, e2, _⟩ := read_loop_file sb s fd buf c (fs_read.capacity s fd count) hO hchain
    (by omega) (by omega)
  rw [fs_read_eq L s sb fd buf count hs hfd hact hc]
  generalize fs_read.loop sb s.FAT s.disk (fs_read.capacity s fd count).toNat buf
    (GetCurrentPosition s fd) (fs_read.capacity s fd count) 0
    (Int.tmod (s.OpenTable.table fd).offset BLOCK_SIZE) = lr at e1 e2 ⊢
  rw [hcap] at e1 e2
  refine ⟨e1, ⟨lr.1, rfl, e2⟩, ?_⟩
  exact fs_stat_congr L s _ fd (fs_lseek_SBlock _ _ _ _) (fs_lseek_index _ _ _ _ _)
    (fs_lseek_RootDir _ _ _ _)


/-- A call of `fs_open` that does not return -1, on a mounted volume. -/
theorem fs_open_ok (L : Limits) (s : State) (sb : SuperBlock) (nm : List Int)
    (hs : s.SBlock = some sb) (h : (fs_open L s (some nm)).1 ≠ -1) :
    ¬ ((nm.length : Int) > L.FS_FILENAME_LEN - 1)
    ∧ s.OpenTable.open_files ≠ L.FS_OPEN_MAX_COUNT
    ∧ RootNameSearch L s nm ≠ -1
    ∧ 0 ≤ FirstEmptyFD L s ∧ FirstEmptyFD L s ≤ L.FS_OPEN_MAX_COUNT - 1
    ∧ (s.OpenTable.table (FirstEmptyFD L s)).index = FAT_EOC
    ∧ fs_open L s (some nm) =
        (FirstEmptyFD L s, { s with
          OpenTable :=
            { table := setAt s.OpenTable.table (FirstEmptyFD L s)
                { index := RootNameSearch L s nm, offset := 0 }
              open_files := s.OpenTable.open_files + 1 } }) := by
  have e := fs_open_eq L s sb nm hs
  by_cases hcond : (nm.length : Int) > L.FS_FILENAME_LEN - 1
      ∨ s.OpenTable.open_files = L.FS_OPEN_MAX_COUNT ∨ RootNameSearch L s nm = -1
  · rw [if_pos hcond] at e
    rw [e] at h
    exact absurd rfl h
  · rw [if_neg hcond] at e
    rw [e] at h
    have hne : FirstEmptyFD L s ≠ -1 := h
    unfold FirstEmptyFD at hne
    have hr : 0 ≤ FirstEmptyFD L s ∧ FirstEmptyFD L s ≤ L.FS_OPEN_MAX_COUNT - 1
        ∧ (s.OpenTable.table (FirstEmptyFD L s)).index = FAT_EOC := by
      unfold FirstEmptyFD
      rcases firstEmptyFD_loop_spec s.OpenTable.table L.FS_OPEN_MAX_COUNT.toNat 0 with a | ⟨a, b, c⟩
      · exact absurd a hne
      · exact ⟨a, by omega, c⟩
    exact ⟨fun a => hcond (Or.inl a), fun a => hcond (Or.inr (Or.inl a)),
      fun a => hcond (Or.inr (Or.inr a)), hr.1, hr.2.1, hr.2.2, e⟩

/-- The round trip from the state `s1` a successful `fs_create` leaves: the
name resolves to the slot `ri` of the new, empty file. -/
theorem round_trip_core (L : Limits) (s1 : State) (sb : SuperBlock) (name : List Int)
    (B buf : Int → Int) (n : Int)
    (hs1 : s1.SBlock = some sb)
    (hL : L.FS_OPEN_MAX_COUNT ≤ 65535)
    (hd : sb.data_block_count ≤ 65535)
    (hroot : sb.root_start_index < sb.data_start_index)
    (hfat : sb.fat_block_count < sb.data_start_index)
    (hof : 0 ≤ s1.OpenTable.open_files)
    (hn : 0 < n)
    (hfree : (n + 4095) / 4096 ≤ free_fat_count sb s1.FAT)
    (hri0 : 0 ≤ RootNameSearch L s1 name)
    (hri1 : RootNameSearch L s1 name < L.FS_OPEN_MAX_COUNT)
    (hent : s1.RootDir (RootNameSearch L s1 name)
      = { filename := name, file_size := 0, data_index := FAT_EOC })
    (fd : Int) (s2 : State) (ho : fs_open L s1 (some name) = (fd, s2)) (hfd : fd ≠ -1)
    (r : Int) (s3 : State) (hw : fs_write L s2 fd (some B) n = (r, s3))
    (cr : Int) (s4 : State) (hcl : fs_close L s3 fd = (cr, s4))
    (fd2 : Int) (s5 : State) (ho2 : fs_open L s4 (some name) = (fd2, s5))
    (g : Int) (s6 : State) (b : Option (Int → Int))
    (hrd : fs_read L s5 fd2 (some buf) n = (g, s6, b)) :
    r = n ∧ cr = 0 ∧ fd2 = fd ∧ fs_stat L s5 fd2 = n ∧ g = n
    ∧ (∃ b', b = some b' ∧ ∀ j, 0 ≤ j → j < n → b' j = B j)
    ∧ fs_stat L s6 fd2 = n := by
  -- the bound on `n`
  have hle := fat_loop_le s1.FAT sb.data_block_count.toNat 0
  have hF : free_fat_count sb s1.FAT = fs_info.fat_loop s1.FAT sb.data_block_count.toNat 0 0 :=
    rfl
  have hn2 : n ≤ 2147483647 := by
    generalize free_fat_count sb s1.FAT = F at hfree hF
    omega
  have hriE : RootNameSearch L s1 name ≠ FAT_EOC := by
    intro hh; rw [hh] at hri1; change (65535 : Int) < _ at hri1; omega
  -- the first `fs_open`
  obtain ⟨hlen, hfull, hfound, f0, f1, f2, e⟩ := fs_open_ok L s1 sb name hs1
    (by rw [ho]; exact hfd)
  obtain ⟨hfdeq, hs2⟩ := Prod.mk.inj (ho.symm.trans e)
  have a1 : s2.SBlock = some sb := by rw [hs2]; exact hs1
  have a2 : s2.FAT = s1.FAT := by rw [hs2]
  have a3 : s2.RootDir = s1.RootDir := by rw [hs2]
  have a4 : s2.OpenTable.open_files = s1.OpenTable.open_files + 1 := by rw [hs2]
  have a5 : s2.OpenTable.table = setAt s1.OpenTable.table fd
      { index := RootNameSearch L s1 name, offset := 0 } := by rw [hs2, hfdeq]
  clear hs2 e
  rw [← hfdeq] at f0 f1 f2
  have a6 : s2.OpenTable.table fd = { index := RootNameSearch L s1 name, offset := 0 } := by
    rw [a5, setAt_same]
  -- the write
  obtain ⟨w1, w2, w3, w4, w5, w6, c, w7, w8, w9⟩ :=
    write_fresh_file L s2 sb fd B n r s3 hw a1 ⟨f0, f1⟩ (by rw [a6]; exact hriE) hd hroot hfat hn
      (by rw [a6, a3]; show (s1.RootDir (RootNameSearch L s1 name)).data_index = _; rw [hent])
      (by rw [a6, a3]; show (s1.RootDir (RootNameSearch L s1 name)).file_size = _; rw [hent])
      (by rw [a6]) (by rw [a2]; exact hfree)
  rw [a6] at w6 w7
  have w6' : (s3.RootDir (RootNameSearch L s1 name)).file_size = n := w6
  have w7' : IsChain s3.FAT (s3.RootDir (RootNameSearch L s1 name)).data_index c := w7
  clear w6 w7
  -- the close
  have hact3 : (s3.OpenTable.table fd).index ≠ FAT_EOC := by
    rw [w4, a6]; exact hriE
  have ec := fs_close_ok L s3 sb fd w2 ⟨f0, f1⟩ (by rw [w3, a4]; omega) hact3
  obtain ⟨hcr, hs4⟩ := Prod.mk.inj (hcl.symm.trans ec)
  have b1 : s4.SBlock = some sb := by rw [hs4]; exact w2
  have b2 : s4.FAT = s3.FAT := by rw [hs4]
  have b3 : s4.RootDir = s3.RootDir := by rw [hs4]
  have b4 : s4.disk = s3.disk := by rw [hs4]
  have b5 : s4.OpenTable.open_files = s1.OpenTable.open_files := by
    rw [hs4]; show s3.OpenTable.open_files - 1 = _; rw [w3, a4]; omega
  have b6 : ∀ i, (s4.OpenTable.table i).index = (s1.OpenTable.table i).index := by
    intro i
    rw [hs4]
    show (setAt s3.OpenTable.table fd { index := FAT_EOC, offset := 0 } i).index = _
    by_cases hi : i = fd
    · rw [hi, setAt_same, f2]
    · rw [setAt_ne _ _ hi, w4, a5, setAt_ne _ _ hi]
  clear hs4 ec
  -- the second `fs_open`
  have hname4 : RootNameSearch L s4 name = RootNameSearch L s1 name := by
    unfold RootNameSearch
    apply rootNameSearch_loop_congr
    intro i
    rw [b3, w5, a3]
  have hfd4 : FirstEmptyFD L s4 = fd := by
    rw [hfdeq]
    unfold FirstEmptyFD
    exact firstEmptyFD_loop_congr _ _ b6 _ _
  have e2 := fs_open_eq L s4 sb name b1
  rw [if_neg (by rw [b5, hname4]; tauto), hfd4, hname4] at e2
  obtain ⟨hfd2, hs5⟩ := Prod.mk.inj (ho2.symm.trans e2)
  have c1 : s5.SBlock = some sb := by rw [hs5]; exact b1
  have c2 : s5.FAT = s3.FAT := by rw [hs5]; exact b2
  have c3 : s5.RootDir = s3.RootDir := by rw [hs5]; exact b3
  have c4 : s5.disk = s3.disk := by rw [hs5]; exact b4
  have c5 : s5.OpenTable.table fd = { index := RootNameSearch L s1 name, offset := 0 } := by
    rw [hs5]
    show setAt s4.OpenTable.table fd _ fd = _
    rw [setAt_same]
  clear hs5 e2
  subst hfd2
  -- `fs_stat` and `fs_read`
  have hstat5 : fs_stat L s5 fd2 = n := by
    rw [fs_stat_active L s5 sb fd2 c1 ⟨f0, f1⟩ (by rw [c5]; exact hriE), c5, c3]
    show toInt32 (s3.RootDir (RootNameSearch L s1 name)).file_size = n
    rw [w6']
    exact toInt32_of_range (by omega) hn2
  obtain ⟨r1, ⟨b', r2, r3⟩, r4⟩ := read_from_chain L s5 sb fd2 buf n c c1 ⟨f0, f1⟩
    (by rw [c5]; exact hriE)
    (by rw [c5])
    (by rw [c5, c3]; show (0 : Int) ≤ (s3.RootDir (RootNameSearch L s1 name)).file_size
        rw [w6']; omega)
    (by rw [c5, c3]; show (s3.RootDir (RootNameSearch L s1 name)).file_size ≤ 2147483647
        rw [w6']; exact hn2)
    hn
    (by rw [c5]; show (0 : Int) + n < 18446744073709551616; omega)
    (by rw [c5, c2, c3]; exact w7')
    (by rw [c5, c3]; show (s3.RootDir (RootNameSearch L s1 name)).file_size ≤ _
        rw [w6']; exact w8)
  rw [hrd] at r1 r2 r4
  rw [c5, c3] at r1 r3
  have r1' : g = min n ((s3.RootDir (RootNameSearch L s1 name)).file_size - 0) := r1
  rw [w6'] at r1'
  have hg : g = n := by omega
  refine ⟨w1, hcr, rfl, hstat5, hg, ⟨b', r2, ?_⟩, by rw [r4, hstat5]⟩
  intro j h0 h1
  have := r3 j h0 (by
    show j < min n ((s3.RootDir (RootNameSearch L s1 name)).file_size - 0)
    rw [w6']; omega)
  rw [this, c4]
  show fileByte sb s3.disk c (0 + j) = B j
  rw [zero_add]
  exact w9 j h0 h1


/-- C1: on a mounted volume with at least `ceil(n / BLOCK_SIZE)` free FAT
entries, `n > 0`, when `fs_create(name)` returns 0 and `fs_open(name)` returns
a descriptor `fd`, the calls `fs_write(fd, B, n)`, `fs_close(fd)`,
`fd2 = fs_open(name)`, `fs_read(fd2, buf, n)` that follow return `n`, 0, the
descriptor `fd` again and `n`; the bytes 0, ..., `n - 1` of the buffer are then
those of `B`, and `fs_stat(fd2)` is `n` before and after the read.  The
superblock is taken to put the root directory and the FAT below
`data_start_index` and to count at most 65535 data blocks; `FS_OPEN_MAX_COUNT`
is at most 65535 and the count of open files is not negative. -/
theorem fresh_file_round_trip (L : Limits) (s : State) (sb : SuperBlock) (name : List Int)
    (B buf : Int → Int) (n : Int)
    (hs : s.SBlock = some sb)
    (hL : L.FS_OPEN_MAX_COUNT ≤ 65535)
    (hd : sb.data_block_count ≤ 65535)
    (hroot : sb.root_start_index < sb.data_start_index)
    (hfat : sb.fat_block_count < sb.data_start_index)
    (hof : 0 ≤ s.OpenTable.open_files)
    (hn : 0 < n)
    (hfree : (n + (BLOCK_SIZE - 1)) / BLOCK_SIZE ≤ free_fat_count sb s.FAT)
    (hcreate : (roundTrip L s name B buf n).created = 0)
    (hopen : (roundTrip L s name B buf n).fd ≠ -1) :
    (roundTrip L s name B buf n).wrote = n
    ∧ (roundTrip L s name B buf n).closed = 0
    ∧ (roundTrip L s name B buf n).fd2 = (roundTrip L s name B buf n).fd
    ∧ (roundTrip L s name B buf n).size_opened = n
    ∧ (roundTrip L s name B buf n).got = n
    ∧ (∃ b', (roundTrip L s name B buf n).buf = some b' ∧ ∀ j, 0 ≤ j → j < n → b' j = B j)
    ∧ (roundTrip L s name B buf n).size = n := by
  obtain ⟨c1, c2, c3, c4, c5, c6⟩ := fs_create_ok L s sb name hs hcreate
  have hfree' : (n + 4095) / 4096 ≤ free_fat_count sb s.FAT := by
    simp only [BLOCK_SIZE] at hfree
    generalize free_fat_count sb s.FAT = F at hfree ⊢
    omega
  exact round_trip_core L (fs_create L s (some name)).2 sb name B buf n c1 hL hd hroot hfat
    (by rw [c3]; exact hof) hn (by rw [c2]; exact hfree') c4 c5 c6
    _ _ rfl hopen _ _ rfl _ _ rfl _ _ rfl _ _ _ rfl

/-- C1 at the scenario of 5000 bytes: the file `"a"` on the freshly formatted
volume `formatted`, whose three free blocks hold the two the file needs. -/
theorem fresh_file_round_trip_witness :
    (roundTrip stdLimits formatted [97] (fun j => j % 251) (fun _ => 0) 5000).wrote = 5000
    ∧ (roundTrip stdLimits formatted [97] (fun j => j % 251) (fun _ => 0) 5000).closed = 0
    ∧ (roundTrip stdLimits formatted [97] (fun j => j % 251) (fun _ => 0) 5000).fd2
        = (roundTrip stdLimits formatted [97] (fun j => j % 251) (fun _ => 0) 5000).fd
    ∧ (roundTrip stdLimits formatted [97] (fun j => j % 251) (fun _ => 0) 5000).size_opened
        = 5000
    ∧ (roundTrip stdLimits formatted [97] (fun j => j % 251) (fun _ => 0) 5000).got = 5000
    ∧ (∃ b', (roundTrip stdLimits formatted [97] (fun j => j % 251) (fun _ => 0) 5000).buf
          = some b'
        ∧ ∀ j, 0 ≤ j → j < 5000 → b' j = (fun j => j % 251) j)
    ∧ (roundTrip stdLimits formatted [97] (fun j => j % 251) (fun _ => 0) 5000).size = 5000 :=
  fresh_file_round_trip stdLimits formatted smallSuper [97] (fun j => j % 251) (fun _ => 0) 5000
    rfl (by decide) (by decide) (by decide) (by decide) (by decide) (by decide) (by decide)
    (by decide) (by decide)

end Libfs
